import Mathlib

/-!
Verification development for the FTMS workout-session core: the trackpoint
smoothing pipeline (`custom_components/ftms/tcx.py`), the session detection
state machine (`custom_components/ftms/session.py`) and the Strava upload
client (`custom_components/ftms/strava.py`).  Machine floats are modelled as
rationals, wall-clock instants and monotonic-loop instants as rationals,
fallible callbacks as `Except`, and the HTTP poll endpoint as an explicit
response script.
-/

/-- One recorded trackpoint.  Mirrors the dicts appended in
`SessionTracker._record_and_check_end` and consumed by `tcx.py`:
keys `time`, `distance_m`, `speed_kmh`, `calories`. -/
structure Trackpoint where
  time : ℚ
  distance_m : ℚ
  speed_kmh : ℚ
  calories : Int
deriving DecidableEq, Repr, Inhabited

/-- `SESSION_START_COUNT` from `const.py`: consecutive qualifying readings
needed to start recording. -/
def SESSION_START_COUNT : Nat := 3

/-- `SESSION_IDLE_TIMEOUT` from `const.py`: seconds without progress before a
session is ended. -/
def SESSION_IDLE_TIMEOUT : ℚ := 30

/-- `SESSION_MIN_POINTS` from `const.py`: minimum trackpoints for a valid
workout. -/
def SESSION_MIN_POINTS : Nat := 10

/-- Stage 1 of `_smooth_trackpoints`: index of the first trackpoint whose
`distance_m` is positive, scanning from index `i`; `0` when no such sample
exists (the Python loop leaves `first_nonzero = 0` when it never breaks). -/
def firstNonzeroAux : Nat → List Trackpoint → Nat
  | _, [] => 0
  | i, tp :: rest => if tp.distance_m > 0 then i else firstNonzeroAux (i + 1) rest

/-- Index used by the stage-1 trim `trackpoints[first_nonzero:]`. -/
def firstNonzero (tps : List Trackpoint) : Nat := firstNonzeroAux 0 tps

/-- Stage 2 of `_smooth_trackpoints`, change-point scan: the source keeps
`changes = [0]` and appends every index `i` whose distance strictly exceeds
the distance at `changes[-1]`.  `lastD` carries that last recorded distance,
`i` the index of the head of the remaining list. -/
def changePointsAux : ℚ → Nat → List Trackpoint → List Nat
  | _, _, [] => []
  | lastD, i, tp :: rest =>
    if tp.distance_m > lastD then i :: changePointsAux tp.distance_m (i + 1) rest
    else changePointsAux lastD (i + 1) rest

/-- The change-point index list `changes` of stage 2, always starting at 0. -/
def changePoints (tps : List Trackpoint) : List Nat :=
  match tps with
  | [] => [0]
  | t0 :: rest => 0 :: changePointsAux t0.distance_m 1 rest

/-- Index-aware map, used to express the in-place writes of the stage-2 inner
loop (each strictly-interior index of a segment is written exactly once, and
all reads come from the untouched input list, so the loop is a per-index
map). -/
def mapIdxFrom (f : Nat → Trackpoint → Trackpoint) : Nat → List Trackpoint → List Trackpoint
  | _, [] => []
  | i, tp :: rest => f i tp :: mapIdxFrom f (i + 1) rest

/-- The interpolated distance written by the stage-2 inner loop for index `j`
of segment `(a, b)`: `d_start + frac * (d_end - d_start)` with
`frac = (t_j - t_start) / dt`. -/
def interpDistance (tps : List Trackpoint) (a b j : Nat) : ℚ :=
  let d_start := (tps.getD a default).distance_m
  let d_end := (tps.getD b default).distance_m
  let t_start := (tps.getD a default).time
  let dt := (tps.getD b default).time - t_start
  d_start + ((tps.getD j default).time - t_start) / dt * (d_end - d_start)

/-- One iteration of the stage-2 segment loop: for segment `(a, b)` the
source skips the segment when `dt <= 0`, otherwise overwrites `distance_m`
of every index strictly between `a` and `b`. -/
def applySeg (tps res : List Trackpoint) (a b : Nat) : List Trackpoint :=
  let dt := (tps.getD b default).time - (tps.getD a default).time
  if dt ≤ 0 then res
  else
    mapIdxFrom
      (fun j tp =>
        if a < j ∧ j < b then { tp with distance_m := interpDistance tps a b j } else tp)
      0 res

/-- The stage-2 outer loop over consecutive change-point pairs. -/
def applySegs (tps : List Trackpoint) : List Nat → List Trackpoint → List Trackpoint
  | a :: b :: rest, res => applySegs tps (b :: rest) (applySeg tps res a b)
  | _, res => res

/-- Stage 2 of `_smooth_trackpoints` on an already-trimmed list: interpolate
between discrete distance jumps, starting from a fresh copy of the input. -/
def interpolateJumps (tps : List Trackpoint) : List Trackpoint :=
  applySegs tps (changePoints tps) tps

/-- Enumeration of a list with indices starting at `i`; models the list
positions the Python code addresses through object identity in stage 3. -/
def enumFromIdx : Nat → List Trackpoint → List (Nat × Trackpoint)
  | _, [] => []
  | i, tp :: rest => (i, tp) :: enumFromIdx (i + 1) rest

/-- Stage 3 inner loop of `_smooth_trackpoints`: keep a sample only when at
least `interval` seconds have elapsed since the last kept sample
(`tp["time"].timestamp() - last_ts >= interval`). -/
def downsampleAux (interval : ℚ) : ℚ → List (Nat × Trackpoint) → List (Nat × Trackpoint)
  | _, [] => []
  | lastTs, (i, tp) :: rest =>
    if tp.time - lastTs ≥ interval then (i, tp) :: downsampleAux interval tp.time rest
    else downsampleAux interval lastTs rest

/-- Stage 3 of `_smooth_trackpoints`: seed with the first sample, keep one
sample per at least 5 seconds, and force-append the final sample when the
last kept one is not already it (`downsampled[-1] is not result[-1]`; the
entries are distinct objects, so identity is index equality). -/
def downsample (res : List Trackpoint) : List Trackpoint :=
  match res with
  | [] => []
  | r0 :: rest =>
    let ds := (0, r0) :: downsampleAux 5 r0.time (enumFromIdx 1 rest)
    let lastKept := ds.getLastD (0, r0)
    let ds2 :=
      if lastKept.1 = (r0 :: rest).length - 1 then ds
      else ds ++ [((r0 :: rest).length - 1, (r0 :: rest).getLastD r0)]
    ds2.map Prod.snd

/-- The speed-recalculation body: `result[i]["speed_kmh"] = (dd / dt) * 3.6`
guarded by `dt > 0`, reading only `time` and `distance_m` of the
predecessor. -/
def speedAt (prev cur : Trackpoint) : Trackpoint :=
  let dt := cur.time - prev.time
  if dt > 0 then { cur with speed_kmh := (cur.distance_m - prev.distance_m) / dt * (3.6 : ℚ) }
  else cur

/-- The speed-recalculation loop over indices `1 ..` with `prev` the already
processed predecessor (whose `time`/`distance_m` the loop body reads are
unchanged by speed writes). -/
def recomputeAux : Trackpoint → List Trackpoint → List Trackpoint
  | _, [] => []
  | prev, cur :: rest =>
    let cur2 := speedAt prev cur
    cur2 :: recomputeAux cur2 rest

/-- Final block of `_smooth_trackpoints`: recompute every speed from the
smoothed, downsampled distance, then copy the second sample's speed onto the
first (or 0 when there is no second sample). -/
def recomputeSpeeds : List Trackpoint → List Trackpoint
  | [] => []
  | r0 :: rest =>
    match recomputeAux r0 rest with
    | [] => [{ r0 with speed_kmh := 0 }]
    | r1 :: rest2 => { r0 with speed_kmh := r1.speed_kmh } :: r1 :: rest2

/-- `_smooth_trackpoints` from `tcx.py`: trim leading zero-distance samples,
interpolate between discrete distance jumps, downsample to one point per
about 5 seconds, recompute speeds; with the source's three early returns. -/
def smoothTrackpoints (trackpoints : List Trackpoint) : List Trackpoint :=
  if trackpoints.length < 2 then trackpoints
  else
    let tps := trackpoints.drop (firstNonzero trackpoints)
    if tps.length < 2 then tps
    else
      if (changePoints tps).length < 2 then tps
      else recomputeSpeeds (downsample (interpolateJumps tps))

/-- Session lifecycle states of `SessionTracker.state`. -/
inductive SessState where
  | idle
  | recording
  | uploading
deriving DecidableEq, Repr

/-- One parsed FTMS telemetry event (`event_data` of an `update` event);
fields arrive sparsely, absent fields are `none`. -/
structure TelemetryEvent where
  time_elapsed : Option Int
  distance_total : Option ℚ
  energy_total : Option Int
  speed_instant : Option ℚ
deriving DecidableEq, Repr

/-- The mutable per-device fields of `SessionTracker` that the detection
logic reads and writes.  `lastActiveTime` and `sessionEndTime` hold
monotonic-loop instants; trackpoint times hold wall-clock instants. -/
structure SessionTracker where
  state : SessState
  consecutiveActive : Nat
  lastActiveTime : ℚ
  lastSpeed : ℚ
  lastDistance : ℚ
  lastElapsed : Int
  sessionEndTime : ℚ
  trackpoints : List Trackpoint
deriving DecidableEq, Repr

/-- `SessionTracker._start_recording`: enter `recording`, clear the raw
trace, and refresh the activity clock (the start wall timestamp is tracked
by the orchestration layer). -/
def startRecording (st : SessionTracker) (now : ℚ) : SessionTracker :=
  { st with state := .recording, trackpoints := [], lastActiveTime := now }

/-- `SessionTracker._check_workout_start`: 15-second cooldown after the most
recent session end (a zero `sessionEndTime` means no previous end), then the
consecutive positive `time_elapsed` counter with threshold
`SESSION_START_COUNT`.  `now` is the running-loop instant. -/
def checkWorkoutStart (st : SessionTracker) (eventData : TelemetryEvent) (now : ℚ) :
    SessionTracker :=
  if st.sessionEndTime ≠ 0 ∧ now - st.sessionEndTime < 15 then st
  else
    let st1 := if st.sessionEndTime ≠ 0 then { st with sessionEndTime := 0 } else st
    match eventData.time_elapsed with
    | some elapsed =>
      if elapsed > 0 then
        let st2 := { st1 with consecutiveActive := st1.consecutiveActive + 1 }
        if st2.consecutiveActive ≥ SESSION_START_COUNT then startRecording st2 now else st2
      else { st1 with consecutiveActive := 0 }
    | none => { st1 with consecutiveActive := 0 }

/-- `SessionTracker._record_and_check_end`: refresh `lastActiveTime` on any
progress (an increase of `time_elapsed` or of `distance_total`), carry the
last distance/speed forward, append one trackpoint stamped with the wall
clock `wallNow`, and report whether the no-activity end condition
`now - last_active_time >= SESSION_IDLE_TIMEOUT` fired. -/
def recordAndCheckEnd (st : SessionTracker) (eventData : TelemetryEvent) (now wallNow : ℚ) :
    SessionTracker × Bool :=
  let st1 :=
    match eventData.time_elapsed with
    | some elapsed =>
      let stA := if elapsed > st.lastElapsed then { st with lastActiveTime := now } else st
      { stA with lastElapsed := elapsed }
    | none => st
  let st2 :=
    match eventData.distance_total with
    | some newDist =>
      let stB := if newDist > st1.lastDistance then { st1 with lastActiveTime := now } else st1
      if newDist > 0 then { stB with lastDistance := newDist } else stB
    | none => st1
  let calories := (eventData.energy_total).getD 0
  let st3 :=
    { st2 with
      trackpoints := st2.trackpoints ++
        [{ time := wallNow, distance_m := st2.lastDistance, speed_kmh := st2.lastSpeed,
           calories := calories }] }
  (st3, decide (now - st3.lastActiveTime ≥ SESSION_IDLE_TIMEOUT))

/-- One wake-up of `SessionTracker._idle_watchdog`: after the 10-second
sleep the task is a no-op unless the state is still `recording`, and then it
force-ends the session exactly when
`now - last_active_time >= SESSION_IDLE_TIMEOUT`. -/
def idleWatchdogTick (st : SessionTracker) (now : ℚ) : Bool :=
  if st.state = .recording then decide (now - st.lastActiveTime ≥ SESSION_IDLE_TIMEOUT)
  else false

/-- Summary data of a generated TCX file, the arguments `_finish_recording`
passes to `generate_tcx` (which starts by smoothing the trackpoints). -/
structure TcxFile where
  points : List Trackpoint
  totalSeconds : ℚ
  totalDistance : ℚ
  calories : Int
deriving DecidableEq, Repr

/-- `SessionTracker._finish_recording`: below `SESSION_MIN_POINTS` raw
samples the session is discarded (reset, no content); otherwise the TCX
content is generated from the raw trace and the cached summary. -/
def finishRecording (startTime : ℚ) (pts : List Trackpoint) : Option TcxFile :=
  if pts.length < SESSION_MIN_POINTS then none
  else
    let last := pts.getLastD default
    some
      { points := smoothTrackpoints pts
        totalSeconds := last.time - startTime
        totalDistance := last.distance_m
        calories := last.calories }

/-- Observable side effects of the end-of-session orchestration, in order:
`_set_state` calls, the durable TCX write, and the post-upload unlink. -/
inductive SessAction where
  | wroteFile
  | enteredState (s : SessState)
  | deletedFile
deriving DecidableEq, Repr

/-- `SessionTracker._do_upload`: enter `uploading`, run the upload, and
unlink the durable file only when an activity URL came back (`if url:`);
a `none` result (benign duplicate, terminal error or poll timeout) leaves
the file on disk. -/
def doUploadActions (uploadRes : Option String) : List SessAction :=
  [.enteredState .uploading] ++
    (match uploadRes with
     | some _ => [.deletedFile]
     | none => [])

/-- `SessionTracker._finish_and_upload`: when `_finish_recording` discards
the session nothing is written or uploaded and the state goes straight back
to `idle`; otherwise the file is written durably, `_do_upload` runs when an
uploader is configured, and the state returns to `idle` at the end. -/
def finishAndUploadActions (startTime : ℚ) (pts : List Trackpoint) (hasUploader : Bool)
    (uploadRes : Option String) : List SessAction :=
  match finishRecording startTime pts with
  | none => [.enteredState .idle]
  | some _ =>
    [.wroteFile] ++ (if hasUploader then doUploadActions uploadRes else []) ++
      [.enteredState .idle]

/-- In-memory OAuth credential held by `StravaUploader`. -/
structure StravaTokens where
  refresh_token : String
  access_token : String
  token_expires_at : ℚ
deriving DecidableEq, Repr

/-- Body of a successful token-refresh response
(`access_token`, `expires_at`, optional `refresh_token`). -/
structure TokenResponse where
  access_token : String
  expires_at : ℚ
  refresh_token : Option String
deriving DecidableEq, Repr

/-- `StravaUploader._ensure_token`: no-op while more than 60 seconds of
validity remain; otherwise adopt the refreshed access token and, when the
service returned a truthy refresh token different from the held one, store
it and await the persistence callback — whose failure propagates, since the
source has no handler around the `await`.  The returned list records every
argument the callback was invoked with. -/
def ensureToken (st : StravaTokens) (resp : TokenResponse) (now : ℚ)
    (persist : String → Except String Unit) : Except String (StravaTokens × List String) :=
  if now < st.token_expires_at - 60 then .ok (st, [])
  else
    let st1 := { st with access_token := resp.access_token, token_expires_at := resp.expires_at }
    match resp.refresh_token with
    | some newRefresh =>
      if newRefresh ≠ "" ∧ newRefresh ≠ st1.refresh_token then
        let st2 := { st1 with refresh_token := newRefresh }
        match persist newRefresh with
        | .ok _ => .ok (st2, [newRefresh])
        | .error e => .error e
      else .ok (st1, [])
    | none => .ok (st1, [])

/-- Python truthiness of the polled `activity_id` field. -/
def truthyId : Option Int → Bool
  | some n => n != 0
  | none => false

/-- Python truthiness of the polled `error` field. -/
def truthyErr : Option String → Bool
  | some s => s != ""
  | none => false

/-- Character-list matcher: does the list start with the pattern? -/
def charsStartWith : List Char → List Char → Bool
  | [], _ => true
  | _ :: _, [] => false
  | p :: ps, c :: cs => p == c && charsStartWith ps cs

/-- Character-list substring test used to model Python's `in` operator. -/
def charsContain (pat : List Char) : List Char → Bool
  | [] => charsStartWith pat []
  | c :: cs => charsStartWith pat (c :: cs) || charsContain pat cs

/-- Python `pat in hay` on strings. -/
def containsSubstring (hay pat : String) : Bool := charsContain pat.data hay.data

/-- Python `str.lower()`, character by character. -/
def lowerString (s : String) : String := String.mk (s.data.map Char.toLower)

/-- One response of the upload-status endpoint
(`GET {STRAVA_UPLOAD_URL}/{upload_id}`). -/
structure UploadStatus where
  activity_id : Option Int
  error : Option String
deriving DecidableEq, Repr

/-- The poll loop of `StravaUploader._upload_file`: up to 30 polls; a truthy
`activity_id` is returned; a truthy `error` terminates with `None` whether
or not it contains "duplicate" (the branch only changes the log line); after
30 polls with no terminal status the upload times out with `None`.  `poll k`
is the k-th response script entry, `i` the current index, the second
argument the remaining iterations. -/
def pollUploadStatus (poll : Nat → UploadStatus) : Nat → Nat → Option Int
  | _, 0 => none
  | i, n + 1 =>
    let status := poll i
    if truthyId status.activity_id then status.activity_id
    else
      if truthyErr status.error then
        if containsSubstring (lowerString ((status.error).getD "")) ("duplicate") then none
        else none
      else pollUploadStatus poll (i + 1) n

/-- Result of `StravaUploader._upload_file` as a function of the status
poll script. -/
def uploadFileResult (poll : Nat → UploadStatus) : Option Int :=
  pollUploadStatus poll 0 30

/-- Result of `StravaUploader.upload` in the non-raising path: a falsy
activity id yields `None`, otherwise the activity URL. -/
def uploadResult (poll : Nat → UploadStatus) : Option String :=
  match uploadFileResult poll with
  | none => none
  | some id => if id == 0 then none else some ("https://www.strava.com/activities/" ++ toString id)

/-- Outcome of one `self._uploader.upload(...)` call as seen by
`upload_pending`: a normal return (with or without URL) or a raised
exception. -/
inductive UploadAttempt where
  | ok (url : Option String)
  | raises
deriving DecidableEq, Repr

/-- What happened to one pending file during the startup retry pass. -/
inductive FileFate where
  | deleted
  | keptStopped
  | untouched
deriving DecidableEq, Repr

/-- The `for path in pending` loop of `SessionTracker.upload_pending`, with
`stopped` recording that a previous iteration hit `break`: a non-raising
upload is followed by an unconditional `path.unlink(missing_ok=True)`, a
raising upload keeps the file and breaks out of the loop. -/
def uploadPendingGo : Bool → List (String × UploadAttempt) → List (String × FileFate)
  | _, [] => []
  | true, (n, _) :: rest => (n, .untouched) :: uploadPendingGo true rest
  | false, (n, .ok _) :: rest => (n, .deleted) :: uploadPendingGo false rest
  | false, (n, .raises) :: rest => (n, .keptStopped) :: uploadPendingGo true rest

/-- `SessionTracker.upload_pending` on the sorted pending-file listing
(`sorted(self._workout_dir.glob(...))`), each file paired with the outcome
its upload call would have. -/
def uploadPending (files : List (String × UploadAttempt)) : List (String × FileFate) :=
  uploadPendingGo false files

/-- Helper: `uploadPendingGo` after a `break` leaves every remaining file
untouched. -/
theorem uploadPendingGo_stopped :
    ∀ files : List (String × UploadAttempt),
      uploadPendingGo true files = files.map (fun p => (p.1, FileFate.untouched))
  | [] => rfl
  | (n, att) :: rest => by
    simp [uploadPendingGo, uploadPendingGo_stopped rest]

/-- C7: a recording that ends with fewer than `SESSION_MIN_POINTS` raw
samples is discarded without encoding: `_finish_recording` returns no
content, `_finish_and_upload` performs no durable write and no upload, and
the only state transition is straight back to `idle` (never through
`uploading`). -/
theorem C7_min_points_discard (startTime : ℚ) (pts : List Trackpoint)
    (hasUploader : Bool) (uploadRes : Option String)
    (hlen : pts.length < SESSION_MIN_POINTS) :
    finishRecording startTime pts = none ∧
    finishAndUploadActions startTime pts hasUploader uploadRes =
      [SessAction.enteredState SessState.idle] ∧
    SessAction.wroteFile ∉ finishAndUploadActions startTime pts hasUploader uploadRes ∧
    SessAction.enteredState SessState.uploading ∉
      finishAndUploadActions startTime pts hasUploader uploadRes := by
  have h1 : finishRecording startTime pts = none := by
    simp [finishRecording, hlen]
  refine ⟨h1, ?_, ?_, ?_⟩ <;> simp [finishAndUploadActions, h1]

/-- Witness for C7 at a concrete 9-sample recording. -/
theorem C7_min_points_discard_witness :
    finishRecording 0 (List.replicate 9 (default : Trackpoint)) = none ∧
    finishAndUploadActions 0 (List.replicate 9 (default : Trackpoint)) true none =
      [SessAction.enteredState SessState.idle] ∧
    SessAction.wroteFile ∉
      finishAndUploadActions 0 (List.replicate 9 (default : Trackpoint)) true none ∧
    SessAction.enteredState SessState.uploading ∉
      finishAndUploadActions 0 (List.replicate 9 (default : Trackpoint)) true none :=
  C7_min_points_discard 0 (List.replicate 9 default) true none (by decide)

/-- C8: when a due token refresh returns a non-empty refresh token different
from the held one, `_ensure_token` replaces the stored refresh token and
invokes the persistence callback exactly once with the new value, and a
callback failure propagates out of `_ensure_token`; a response carrying the
same refresh token invokes the callback zero times. -/
theorem C8_token_rotation (st : StravaTokens) (resp : TokenResponse) (now : ℚ)
    (persist : String → Except String Unit) (nr : String)
    (hdue : ¬ now < st.token_expires_at - 60)
    (hnr : resp.refresh_token = some nr) :
    ((nr ≠ "" ∧ nr ≠ st.refresh_token) →
      (∀ u, persist nr = .ok u →
        ensureToken st resp now persist =
          .ok ({ refresh_token := nr, access_token := resp.access_token,
                 token_expires_at := resp.expires_at }, [nr])) ∧
      (∀ e, persist nr = .error e → ensureToken st resp now persist = .error e)) ∧
    (nr = st.refresh_token →
      ensureToken st resp now persist =
        .ok ({ refresh_token := st.refresh_token, access_token := resp.access_token,
               token_expires_at := resp.expires_at }, [])) := by
  constructor
  · intro hrot
    constructor
    · intro u hok
      simp [ensureToken, hdue, hnr, hrot, hok]
    · intro e herr
      simp [ensureToken, hdue, hnr, hrot, herr]
  · intro hsame
    have : ¬ (nr ≠ "" ∧ nr ≠ st.refresh_token) := by
      intro h
      exact h.2 hsame
    simp [ensureToken, hdue, hnr, this]

/-- Witness for C8: a rotated token persists once, a persistence failure
surfaces, an unchanged token persists zero times. -/
theorem C8_token_rotation_witness :
    ensureToken { refresh_token := "old", access_token := "", token_expires_at := 0 }
        { access_token := "acc", expires_at := 1000, refresh_token := some "new" } 100
        (fun _ => .ok ()) =
      .ok ({ refresh_token := "new", access_token := "acc", token_expires_at := 1000 },
        ["new"]) ∧
    ensureToken { refresh_token := "old", access_token := "", token_expires_at := 0 }
        { access_token := "acc", expires_at := 1000, refresh_token := some "new" } 100
        (fun _ => .error "persist failed") = .error "persist failed" ∧
    ensureToken { refresh_token := "old", access_token := "", token_expires_at := 0 }
        { access_token := "acc", expires_at := 1000, refresh_token := some "old" } 100
        (fun _ => .ok ()) =
      .ok ({ refresh_token := "old", access_token := "acc", token_expires_at := 1000 }, []) := by
  refine ⟨?_, ?_, ?_⟩
  · exact ((C8_token_rotation _ _ 100 _ "new" (by norm_num) rfl).1 (by decide)).1 () rfl
  · exact ((C8_token_rotation _ _ 100 _ "new" (by norm_num) rfl).1 (by decide)).2
      "persist failed" rfl
  · exact (C8_token_rotation _ _ 100 _ "old" (by norm_num) rfl).2 rfl

/-- Helper: the retry pass visits every pending file exactly once. -/
theorem uploadPendingGo_length :
    ∀ (s : Bool) (files : List (String × UploadAttempt)),
      (uploadPendingGo s files).length = files.length
  | _, [] => by cases ‹Bool› <;> rfl
  | true, (n, att) :: rest => by
    simp [uploadPendingGo, uploadPendingGo_length true rest]
  | false, (n, .ok u) :: rest => by
    simp [uploadPendingGo, uploadPendingGo_length false rest]
  | false, (n, .raises) :: rest => by
    simp [uploadPendingGo, uploadPendingGo_length true rest]

/-- Helper: the retry pass keeps the pending files in order by name. -/
theorem uploadPendingGo_names :
    ∀ (s : Bool) (files : List (String × UploadAttempt)),
      (uploadPendingGo s files).map Prod.fst = files.map Prod.fst
  | _, [] => by cases ‹Bool› <;> rfl
  | true, (n, att) :: rest => by
    simp [uploadPendingGo, uploadPendingGo_names true rest]
  | false, (n, .ok u) :: rest => by
    simp [uploadPendingGo, uploadPendingGo_names false rest]
  | false, (n, .raises) :: rest => by
    simp [uploadPendingGo, uploadPendingGo_names true rest]

/-- C10: during the startup retry pass over the sorted pending files, a file
is deleted exactly when its own upload call returned normally (with or
without a URL — benign duplicate, terminal processing error and poll
timeout all return `None` and are still deleted) and no earlier upload
raised; the file whose upload raised is kept and stops the pass, and every
later file is untouched. -/
theorem C10_pending_pass :
    ∀ (files : List (String × UploadAttempt)) (i : Nat), i < files.length →
      (uploadPending files).length = files.length ∧
      (uploadPending files).map Prod.fst = files.map Prod.fst ∧
      (((uploadPending files).getD i ("", FileFate.untouched)).2 = FileFate.deleted ↔
        ((files.getD i ("", UploadAttempt.raises)).2 ≠ UploadAttempt.raises ∧
          ∀ k, k < i → (files.getD k ("", UploadAttempt.raises)).2 ≠ UploadAttempt.raises)) ∧
      (((uploadPending files).getD i ("", FileFate.untouched)).2 = FileFate.keptStopped ↔
        ((files.getD i ("", UploadAttempt.raises)).2 = UploadAttempt.raises ∧
          ∀ k, k < i → (files.getD k ("", UploadAttempt.raises)).2 ≠ UploadAttempt.raises)) ∧
      (((uploadPending files).getD i ("", FileFate.untouched)).2 = FileFate.untouched ↔
        ∃ k, k < i ∧ (files.getD k ("", UploadAttempt.raises)).2 = UploadAttempt.raises)
  | [], i, hi => absurd hi (by simp)
  | (n, att) :: rest, 0, _ => by
    refine ⟨uploadPendingGo_length false _, uploadPendingGo_names false _, ?_, ?_, ?_⟩ <;>
      cases att <;>
        simp [uploadPending, uploadPendingGo, uploadPendingGo_stopped]
  | (n, att) :: rest, j + 1, hi => by
    have hj : j < rest.length := by simpa using hi
    have hforall : ∀ k, (((n, att) :: rest).getD (k + 1) ("", UploadAttempt.raises)) =
        rest.getD k ("", UploadAttempt.raises) := fun k => List.getD_cons_succ
    refine ⟨uploadPendingGo_length false _, uploadPendingGo_names false _, ?_, ?_, ?_⟩
    · cases att with
      | ok u =>
        obtain ⟨_, _, ihdel, _, _⟩ := C10_pending_pass rest j hj
        have hstep : uploadPending ((n, UploadAttempt.ok u) :: rest) =
            (n, FileFate.deleted) :: uploadPending rest := rfl
        rw [hstep, List.getD_cons_succ, List.getD_cons_succ, ihdel]
        constructor
        · rintro ⟨h1, h2⟩
          refine ⟨h1, fun k hk => ?_⟩
          cases k with
          | zero => simp
          | succ k2 =>
            rw [hforall k2]
            exact h2 k2 (by omega)
        · rintro ⟨h1, h2⟩
          refine ⟨h1, fun k hk => ?_⟩
          have h3 := h2 (k + 1) (by omega)
          rw [hforall k] at h3
          exact h3
      | raises =>
        have hstep : uploadPending ((n, UploadAttempt.raises) :: rest) =
            (n, FileFate.keptStopped) :: rest.map (fun p => (p.1, FileFate.untouched)) := by
          simp [uploadPending, uploadPendingGo, uploadPendingGo_stopped]
        have hfate : ((uploadPending ((n, UploadAttempt.raises) :: rest)).getD (j + 1)
            ("", FileFate.untouched)).2 = FileFate.untouched := by
          rw [hstep, List.getD_cons_succ, List.getD_eq_getElem?_getD]
          have hp : rest[j]? = some rest[j] := List.getElem?_eq_getElem hj
          simp [hp]
        rw [hfate]
        constructor
        · intro h
          exact absurd h (by simp)
        · rintro ⟨h1, h2⟩
          exact absurd (by simp) (h2 0 (by omega))
    · cases att with
      | ok u =>
        obtain ⟨_, _, _, ihkept, _⟩ := C10_pending_pass rest j hj
        have hstep : uploadPending ((n, UploadAttempt.ok u) :: rest) =
            (n, FileFate.deleted) :: uploadPending rest := rfl
        rw [hstep, List.getD_cons_succ, List.getD_cons_succ, ihkept]
        constructor
        · rintro ⟨h1, h2⟩
          refine ⟨h1, fun k hk => ?_⟩
          cases k with
          | zero => simp
          | succ k2 =>
            rw [hforall k2]
            exact h2 k2 (by omega)
        · rintro ⟨h1, h2⟩
          refine ⟨h1, fun k hk => ?_⟩
          have h3 := h2 (k + 1) (by omega)
          rw [hforall k] at h3
          exact h3
      | raises =>
        have hstep : uploadPending ((n, UploadAttempt.raises) :: rest) =
            (n, FileFate.keptStopped) :: rest.map (fun p => (p.1, FileFate.untouched)) := by
          simp [uploadPending, uploadPendingGo, uploadPendingGo_stopped]
        have hfate : ((uploadPending ((n, UploadAttempt.raises) :: rest)).getD (j + 1)
            ("", FileFate.untouched)).2 = FileFate.untouched := by
          rw [hstep, List.getD_cons_succ, List.getD_eq_getElem?_getD]
          have hp : rest[j]? = some rest[j] := List.getElem?_eq_getElem hj
          simp [hp]
        rw [hfate]
        constructor
        · intro h
          exact absurd h (by simp)
        · rintro ⟨h1, h2⟩
          exact absurd (by simp) (h2 0 (by omega))
    · cases att with
      | ok u =>
        obtain ⟨_, _, _, _, ihunt⟩ := C10_pending_pass rest j hj
        have hstep : uploadPending ((n, UploadAttempt.ok u) :: rest) =
            (n, FileFate.deleted) :: uploadPending rest := rfl
        rw [hstep, List.getD_cons_succ, ihunt]
        constructor
        · rintro ⟨k, hk, hr⟩
          refine ⟨k + 1, by omega, ?_⟩
          rw [hforall k]
          exact hr
        · rintro ⟨k, hk, hr⟩
          cases k with
          | zero => simp at hr
          | succ k2 =>
            rw [hforall k2] at hr
            exact ⟨k2, by omega, hr⟩
      | raises =>
        have hstep : uploadPending ((n, UploadAttempt.raises) :: rest) =
            (n, FileFate.keptStopped) :: rest.map (fun p => (p.1, FileFate.untouched)) := by
          simp [uploadPending, uploadPendingGo, uploadPendingGo_stopped]
        have hfate : ((uploadPending ((n, UploadAttempt.raises) :: rest)).getD (j + 1)
            ("", FileFate.untouched)).2 = FileFate.untouched := by
          rw [hstep, List.getD_cons_succ, List.getD_eq_getElem?_getD]
          have hp : rest[j]? = some rest[j] := List.getElem?_eq_getElem hj
          simp [hp]
        rw [hfate]
        constructor
        · intro _
          exact ⟨0, by omega, by simp⟩
        · intro _
          rfl

/-- Witness for C10 on a concrete four-file pass: a successful upload, a
benign-duplicate `None` result, a raising upload, and a file after the
break. -/
theorem C10_pending_pass_witness :
    (uploadPending
      [("a.tcx", UploadAttempt.ok (some "url")), ("b.tcx", UploadAttempt.ok none),
       ("c.tcx", UploadAttempt.raises), ("d.tcx", UploadAttempt.ok none)]).getD 1
        ("", FileFate.untouched) = ("b.tcx", FileFate.deleted) ∧
    (uploadPending
      [("a.tcx", UploadAttempt.ok (some "url")), ("b.tcx", UploadAttempt.ok none),
       ("c.tcx", UploadAttempt.raises), ("d.tcx", UploadAttempt.ok none)]).getD 3
        ("", FileFate.untouched) = ("d.tcx", FileFate.untouched) ∧
    ((uploadPending
      [("a.tcx", UploadAttempt.ok (some "url")), ("b.tcx", UploadAttempt.ok none),
       ("c.tcx", UploadAttempt.raises), ("d.tcx", UploadAttempt.ok none)]).getD 1
        ("", FileFate.untouched)).2 = FileFate.deleted ∧
    ((uploadPending
      [("a.tcx", UploadAttempt.ok (some "url")), ("b.tcx", UploadAttempt.ok none),
       ("c.tcx", UploadAttempt.raises), ("d.tcx", UploadAttempt.ok none)]).getD 2
        ("", FileFate.untouched)).2 = FileFate.keptStopped ∧
    ((uploadPending
      [("a.tcx", UploadAttempt.ok (some "url")), ("b.tcx", UploadAttempt.ok none),
       ("c.tcx", UploadAttempt.raises), ("d.tcx", UploadAttempt.ok none)]).getD 3
        ("", FileFate.untouched)).2 = FileFate.untouched := by
  refine ⟨by decide, by decide, ?_, ?_, ?_⟩
  · exact (C10_pending_pass _ 1 (by decide)).2.2.1.mpr ⟨by decide, by decide⟩
  · exact (C10_pending_pass _ 2 (by decide)).2.2.2.1.mpr ⟨by decide, by decide⟩
  · exact (C10_pending_pass _ 3 (by decide)).2.2.2.2.mpr ⟨2, by decide, by decide⟩

/-- C3: in `idle`, the 15-second cooldown after the most recent session end
suppresses start detection entirely; outside the cooldown an event with a
positive `time_elapsed` increments the consecutive-active counter and
recording starts exactly when the counter reaches `SESSION_START_COUNT`,
while any other event resets the counter to 0 and never starts. -/
theorem C3_session_start (st : SessionTracker) (ev : TelemetryEvent) (now : ℚ)
    (hidle : st.state = SessState.idle) :
    ((st.sessionEndTime ≠ 0 ∧ now - st.sessionEndTime < 15) →
      checkWorkoutStart st ev now = st) ∧
    (¬ (st.sessionEndTime ≠ 0 ∧ now - st.sessionEndTime < 15) →
      (∀ e, ev.time_elapsed = some e → 0 < e →
        (checkWorkoutStart st ev now).consecutiveActive = st.consecutiveActive + 1 ∧
        ((checkWorkoutStart st ev now).state = SessState.recording ↔
          SESSION_START_COUNT ≤ st.consecutiveActive + 1)) ∧
      ((ev.time_elapsed = none ∨ ∃ e, ev.time_elapsed = some e ∧ e ≤ 0) →
        (checkWorkoutStart st ev now).consecutiveActive = 0 ∧
        (checkWorkoutStart st ev now).state = SessState.idle)) := by
  constructor
  · intro hcool
    simp [checkWorkoutStart, hcool]
  · intro hnocool
    constructor
    · intro e he hpos
      by_cases hz : st.sessionEndTime ≠ 0
      · have h15 : ¬ (now - st.sessionEndTime < 15) := fun h => hnocool ⟨hz, h⟩
        by_cases hthr : SESSION_START_COUNT ≤ st.consecutiveActive + 1 <;>
          simp [checkWorkoutStart, startRecording, he, hpos, hz, h15, hthr, hidle, ge_iff_le]
      · by_cases hthr : SESSION_START_COUNT ≤ st.consecutiveActive + 1 <;>
          simp [checkWorkoutStart, startRecording, he, hpos, hz, hthr, hidle, ge_iff_le]
    · intro hbad
      rcases hbad with hnone | ⟨e, he, hle⟩
      · by_cases hz : st.sessionEndTime ≠ 0
        · have h15 : ¬ (now - st.sessionEndTime < 15) := fun h => hnocool ⟨hz, h⟩
          simp [checkWorkoutStart, hnone, hz, h15, hidle]
        · simp [checkWorkoutStart, hnone, hz, hidle]
      · have hne : ¬ (0 : Int) < e := by omega
        by_cases hz : st.sessionEndTime ≠ 0
        · have h15 : ¬ (now - st.sessionEndTime < 15) := fun h => hnocool ⟨hz, h⟩
          simp [checkWorkoutStart, he, hne, hz, h15, hidle]
        · simp [checkWorkoutStart, he, hne, hz, hidle]

/-- Witness for C3: from a fresh idle tracker, the cooldown swallows an
event, two qualifying events do not start recording, the third does, and a
zero-elapsed event resets the counter. -/
theorem C3_session_start_witness :
    (checkWorkoutStart
        { state := SessState.idle, consecutiveActive := 2, lastActiveTime := 0, lastSpeed := 0,
          lastDistance := 0, lastElapsed := -1, sessionEndTime := 90, trackpoints := [] }
        { time_elapsed := some 5, distance_total := none, energy_total := none,
          speed_instant := none } 100 =
      { state := SessState.idle, consecutiveActive := 2, lastActiveTime := 0, lastSpeed := 0,
        lastDistance := 0, lastElapsed := -1, sessionEndTime := 90, trackpoints := [] }) ∧
    ((checkWorkoutStart
        { state := SessState.idle, consecutiveActive := 1, lastActiveTime := 0, lastSpeed := 0,
          lastDistance := 0, lastElapsed := -1, sessionEndTime := 0, trackpoints := [] }
        { time_elapsed := some 5, distance_total := none, energy_total := none,
          speed_instant := none } 100).consecutiveActive = 2 ∧
      ¬ (checkWorkoutStart
        { state := SessState.idle, consecutiveActive := 1, lastActiveTime := 0, lastSpeed := 0,
          lastDistance := 0, lastElapsed := -1, sessionEndTime := 0, trackpoints := [] }
        { time_elapsed := some 5, distance_total := none, energy_total := none,
          speed_instant := none } 100).state = SessState.recording) ∧
    ((checkWorkoutStart
        { state := SessState.idle, consecutiveActive := 2, lastActiveTime := 0, lastSpeed := 0,
          lastDistance := 0, lastElapsed := -1, sessionEndTime := 0, trackpoints := [] }
        { time_elapsed := some 5, distance_total := none, energy_total := none,
          speed_instant := none } 100).state = SessState.recording) ∧
    ((checkWorkoutStart
        { state := SessState.idle, consecutiveActive := 2, lastActiveTime := 0, lastSpeed := 0,
          lastDistance := 0, lastElapsed := -1, sessionEndTime := 0, trackpoints := [] }
        { time_elapsed := some 0, distance_total := none, energy_total := none,
          speed_instant := none } 100).consecutiveActive = 0) := by
  refine ⟨?_, ⟨?_, ?_⟩, ?_, ?_⟩
  · exact (C3_session_start _ _ 100 rfl).1 ⟨by norm_num, by norm_num⟩
  · exact (((C3_session_start _ _ 100 rfl).2 (by push_neg; intro h; norm_num)).1 5 rfl
      (by norm_num)).1
  · intro hrec
    have h2 := (((C3_session_start _ _ 100 rfl).2 (by push_neg; intro h; norm_num)).1 5 rfl
      (by norm_num)).2.mp hrec
    simp [SESSION_START_COUNT] at h2
  · exact (((C3_session_start _ _ 100 rfl).2 (by push_neg; intro h; norm_num)).1 5 rfl
      (by norm_num)).2.mpr (by simp [SESSION_START_COUNT])
  · exact (((C3_session_start _ _ 100 rfl).2 (by push_neg; intro h; norm_num)).2
      (Or.inr ⟨0, rfl, le_refl 0⟩)).1

/-- C2 counterexample: with the last progress 30 seconds ago — not strictly
more — both the watchdog check and the inline check already force the end of
the session (the source compares with `>=`), contradicting the claim that at
a no-progress duration of 30 seconds the session keeps recording. -/
theorem C2_counterexample_exact_30 :
    idleWatchdogTick
      { state := SessState.recording, consecutiveActive := 0, lastActiveTime := 0,
        lastSpeed := 0, lastDistance := 0, lastElapsed := -1, sessionEndTime := 0,
        trackpoints := [] } 30 = true ∧
    (recordAndCheckEnd
      { state := SessState.recording, consecutiveActive := 0, lastActiveTime := 0,
        lastSpeed := 0, lastDistance := 0, lastElapsed := -1, sessionEndTime := 0,
        trackpoints := [] }
      { time_elapsed := none, distance_total := none, energy_total := none,
        speed_instant := none } 30 30).2 = true := by
  constructor
  · norm_num [idleWatchdogTick, SESSION_IDLE_TIMEOUT, decide_eq_true_iff]
  · norm_num [recordAndCheckEnd, SESSION_IDLE_TIMEOUT, decide_eq_true_iff]

/-- C2 amended: while recording, the session is force-ended exactly when at
least 30 seconds (`>=`, not strictly more) have elapsed since the last
observed progress; a watchdog tick fires iff the threshold is reached, a
tick once the state has left `recording` is a no-op, and the inline check on
a telemetry event fires iff the event brings no progress (no increase of
`time_elapsed` over `lastElapsed`, none of `distance_total` over
`lastDistance`) and the threshold is reached — a progress event refreshes
`lastActiveTime` to `now` and never fires. -/
theorem C2_no_progress_timeout (st : SessionTracker) (ev : TelemetryEvent) (now wallNow : ℚ) :
    (st.state = SessState.recording →
      (idleWatchdogTick st now = true ↔ SESSION_IDLE_TIMEOUT ≤ now - st.lastActiveTime)) ∧
    (st.state ≠ SessState.recording → idleWatchdogTick st now = false) ∧
    ((recordAndCheckEnd st ev now wallNow).2 = true ↔
      (¬ ((∃ e, ev.time_elapsed = some e ∧ st.lastElapsed < e) ∨
          (∃ d, ev.distance_total = some d ∧ st.lastDistance < d)) ∧
        SESSION_IDLE_TIMEOUT ≤ now - st.lastActiveTime)) := by
  have hto : ¬ (SESSION_IDLE_TIMEOUT ≤ (0 : ℚ)) := by norm_num [SESSION_IDLE_TIMEOUT]
  refine ⟨?_, ?_, ?_⟩
  · intro hrec
    simp [idleWatchdogTick, hrec, ge_iff_le]
  · intro hnrec
    simp [idleWatchdogTick, hnrec]
  · rcases hev : ev.time_elapsed with _ | e <;> rcases hdv : ev.distance_total with _ | d
    · simp [recordAndCheckEnd, hev, hdv, ge_iff_le, decide_eq_true_iff]
    · by_cases hd : st.lastDistance < d
      · by_cases hd0 : (0 : ℚ) < d <;>
          simp [recordAndCheckEnd, hev, hdv, hd, hd0, gt_iff_lt, ge_iff_le, sub_self, hto]
      · by_cases hd0 : (0 : ℚ) < d <;>
          simp [recordAndCheckEnd, hev, hdv, hd, hd0, gt_iff_lt, ge_iff_le,
            decide_eq_true_iff]
    · by_cases he : st.lastElapsed < e <;>
        simp [recordAndCheckEnd, hev, hdv, he, gt_iff_lt, ge_iff_le, sub_self, hto,
          decide_eq_true_iff]
    · by_cases he : st.lastElapsed < e <;> by_cases hd : st.lastDistance < d <;>
        by_cases hd0 : (0 : ℚ) < d <;>
          simp [recordAndCheckEnd, hev, hdv, he, hd, hd0, gt_iff_lt, ge_iff_le, sub_self,
            hto, decide_eq_true_iff]

/-- Witness for C2: at 31 seconds without progress the watchdog fires and
the inline check fires; a tick in `idle` is a no-op. -/
theorem C2_no_progress_timeout_witness :
    idleWatchdogTick
      { state := SessState.recording, consecutiveActive := 0, lastActiveTime := 0,
        lastSpeed := 0, lastDistance := 0, lastElapsed := -1, sessionEndTime := 0,
        trackpoints := [] } 31 = true ∧
    idleWatchdogTick
      { state := SessState.idle, consecutiveActive := 0, lastActiveTime := 0,
        lastSpeed := 0, lastDistance := 0, lastElapsed := -1, sessionEndTime := 0,
        trackpoints := [] } 31 = false ∧
    (recordAndCheckEnd
      { state := SessState.recording, consecutiveActive := 0, lastActiveTime := 0,
        lastSpeed := 0, lastDistance := 0, lastElapsed := -1, sessionEndTime := 0,
        trackpoints := [] }
      { time_elapsed := none, distance_total := none, energy_total := none,
        speed_instant := none } 31 31).2 = true := by
  refine ⟨?_, ?_, ?_⟩
  · exact ((C2_no_progress_timeout _
      { time_elapsed := none, distance_total := none, energy_total := none,
        speed_instant := none } 31 31).1 rfl).mpr (by norm_num [SESSION_IDLE_TIMEOUT])
  · exact (C2_no_progress_timeout _
      { time_elapsed := none, distance_total := none, energy_total := none,
        speed_instant := none } 31 31).2.1 (by decide)
  · exact (C2_no_progress_timeout _ _ 31 31).2.2.mpr
      ⟨by simp, by norm_num [SESSION_IDLE_TIMEOUT]⟩

/-- Concrete status-poll script: the first poll already reports the benign
duplicate error. -/
def dupPollScript : Nat → UploadStatus :=
  fun _ => { activity_id := none, error := some ("Duplicate of activity 123") }

/-- C1 counterexample: on a poll script whose first status is the
case-insensitively matched duplicate error, `upload` returns `None`, and
`_do_upload` then does not delete the durable file — deletion happens only
under `if url:` — contrary to the claim that the caller deletes the source
file on a benign duplicate. -/
theorem C1_counterexample_duplicate_file_kept :
    uploadResult dupPollScript = none ∧
    doUploadActions (uploadResult dupPollScript) =
      [SessAction.enteredState SessState.uploading] ∧
    SessAction.deletedFile ∉ doUploadActions (uploadResult dupPollScript) ∧
    containsSubstring (lowerString ("Duplicate of activity 123")) ("duplicate") = true := by
  refine ⟨?_, ?_, ?_, by decide⟩ <;>
    · have h : uploadResult dupPollScript = none := by decide
      simp [h, doUploadActions]

/-- Helper: when every status before index `i + c` is non-terminal and the
status at `i + c` is a falsy-id, truthy-error one, the poll loop of
`_upload_file` ends with `None`. -/
theorem pollUploadStatus_err (poll : Nat → UploadStatus) :
    ∀ (c i fuel : Nat),
      (∀ k, k < c → truthyId (poll (i + k)).activity_id = false ∧
        truthyErr (poll (i + k)).error = false) →
      c < fuel →
      truthyId (poll (i + c)).activity_id = false →
      truthyErr (poll (i + c)).error = true →
      pollUploadStatus poll i fuel = none
  | 0, i, fuel + 1, _, _, hid, herr => by
    rw [pollUploadStatus]
    simp only [Nat.add_zero] at hid herr
    simp [hid, herr]
  | c + 1, i, fuel + 1, hpre, hc, hid, herr => by
    have h0 := hpre 0 (by omega)
    simp only [Nat.add_zero] at h0
    rw [pollUploadStatus]
    simp only [h0.1, h0.2, Bool.false_eq_true, if_false]
    refine pollUploadStatus_err poll c (i + 1) fuel (fun k hk => ?_) (by omega) ?_ ?_
    · have h1 := hpre (k + 1) (by omega)
      have he : i + (k + 1) = i + 1 + k := by omega
      rw [he] at h1
      exact h1
    · have he : i + (c + 1) = i + 1 + c := by omega
      rw [he] at hid
      exact hid
    · have he : i + (c + 1) = i + 1 + c := by omega
      rw [he] at herr
      exact herr

/-- C1 amended: an upload whose status poll reaches a terminal error —
duplicate or not — returns `None`, and the caller `_do_upload` does not
remove the durable file; `_do_upload` unlinks the file exactly when the
upload produced an activity URL, so the file is removed only on a
successful upload, and benign duplicates are cleaned up later by the
startup retry pass. -/
theorem C1_upload_error_keeps_file (poll : Nat → UploadStatus) (i : Nat) (hi : i < 30)
    (hpre : ∀ k, k < i → truthyId (poll k).activity_id = false ∧
      truthyErr (poll k).error = false)
    (hid : truthyId (poll i).activity_id = false)
    (herr : truthyErr (poll i).error = true) :
    uploadResult poll = none ∧
    SessAction.deletedFile ∉ doUploadActions (uploadResult poll) ∧
    (∀ r : Option String, SessAction.deletedFile ∈ doUploadActions r ↔ ∃ u, r = some u) := by
  have hfile : uploadFileResult poll = none := by
    have h := pollUploadStatus_err poll i 0 30 (fun k hk => by simpa using hpre k hk) hi
      (by simpa using hid) (by simpa using herr)
    simpa [uploadFileResult] using h
  have hres : uploadResult poll = none := by simp [uploadResult, hfile]
  refine ⟨hres, ?_, ?_⟩
  · simp [hres, doUploadActions]
  · intro r
    cases r <;> simp [doUploadActions]

/-- Witness for C1's amended statement at the concrete duplicate script. -/
theorem C1_upload_error_keeps_file_witness :
    uploadResult dupPollScript = none ∧
    SessAction.deletedFile ∉ doUploadActions (uploadResult dupPollScript) ∧
    (∀ r : Option String, SessAction.deletedFile ∈ doUploadActions r ↔ ∃ u, r = some u) :=
  C1_upload_error_keeps_file dupPollScript 0 (by omega) (fun k hk => absurd hk (by omega))
    (by decide) (by decide)

/-- Helper: `mapIdxFrom` preserves length. -/
theorem mapIdxFrom_length (f : Nat → Trackpoint → Trackpoint) :
    ∀ (i : Nat) (l : List Trackpoint), (mapIdxFrom f i l).length = l.length
  | _, [] => rfl
  | i, tp :: rest => by simp [mapIdxFrom, mapIdxFrom_length f (i + 1) rest]

/-- Helper: `mapIdxFrom` acts pointwise at the shifted index. -/
theorem mapIdxFrom_getElem? (f : Nat → Trackpoint → Trackpoint) :
    ∀ (l : List Trackpoint) (i k : Nat),
      (mapIdxFrom f i l)[k]? = (l[k]?).map (f (i + k))
  | [], i, k => by simp [mapIdxFrom]
  | tp :: rest, i, 0 => by simp [mapIdxFrom]
  | tp :: rest, i, k + 1 => by
    have he : i + (k + 1) = i + 1 + k := by omega
    rw [he]
    simpa [mapIdxFrom] using mapIdxFrom_getElem? f rest (i + 1) k

/-- Helper: a pointwise-identity `mapIdxFrom` is the identity. -/
theorem mapIdxFrom_eq_self (f : Nat → Trackpoint → Trackpoint)
    (hf : ∀ j tp, f j tp = tp) :
    ∀ (i : Nat) (l : List Trackpoint), mapIdxFrom f i l = l
  | _, [] => rfl
  | i, tp :: rest => by simp [mapIdxFrom, hf, mapIdxFrom_eq_self f hf (i + 1) rest]

/-- Helper: one stage-2 segment pass preserves length. -/
theorem applySeg_length (tps res : List Trackpoint) (a b : Nat) :
    (applySeg tps res a b).length = res.length := by
  simp only [applySeg]
  split
  · rfl
  · exact mapIdxFrom_length _ 0 res

/-- Helper: a stage-2 segment pass leaves every index outside the open
segment unchanged. -/
theorem applySeg_getElem?_outside (tps res : List Trackpoint) (a b j : Nat)
    (h : ¬ (a < j ∧ j < b)) : (applySeg tps res a b)[j]? = res[j]? := by
  simp only [applySeg]
  split
  · rfl
  · rw [mapIdxFrom_getElem?]
    cases hr : res[j]? <;> simp [hr, h]

/-- Helper: a stage-2 segment pass with positive elapsed time writes the
interpolated distance at every strictly-interior index. -/
theorem applySeg_getElem?_inside (tps res : List Trackpoint) (a b j : Nat)
    (haj : a < j) (hjb : j < b)
    (hdt : 0 < (tps.getD b default).time - (tps.getD a default).time) :
    (applySeg tps res a b)[j]? =
      (res[j]?).map (fun tp => { tp with distance_m := interpDistance tps a b j }) := by
  simp only [applySeg]
  rw [if_neg (not_le.mpr hdt), mapIdxFrom_getElem?]
  cases hr : res[j]? <;> simp [hr, haj, hjb]

/-- Helper: the stage-2 outer loop leaves index `j` unchanged as long as
every consecutive change-point pair either does not strictly contain `j` or
has non-positive elapsed time. -/
theorem applySegs_getElem?_untouched (tps : List Trackpoint) :
    ∀ (cs : List Nat) (res : List Trackpoint) (j : Nat),
      List.Chain' (fun x y => ¬ (x < j ∧ j < y) ∨
        (tps.getD y default).time - (tps.getD x default).time ≤ 0) cs →
      (applySegs tps cs res)[j]? = res[j]?
  | [], _, _, _ => rfl
  | [x], _, _, _ => rfl
  | x :: y :: rest, res, j, h => by
    rw [List.chain'_cons] at h
    show (applySegs tps (y :: rest) (applySeg tps res x y))[j]? = res[j]?
    rw [applySegs_getElem?_untouched tps (y :: rest) _ j h.2]
    rcases h.1 with hout | hdt
    · exact applySeg_getElem?_outside tps res x y j hout
    · simp only [applySeg]
      rw [if_pos hdt]

/-- Helper: in a `<`-sorted cons list every element dominates the head. -/
theorem sorted_head_le {b : Nat} {l : List Nat}
    (hp : List.Pairwise (· < ·) (b :: l)) : ∀ x ∈ b :: l, b ≤ x := by
  intro x hx
  rcases List.mem_cons.mp hx with rfl | hx2
  · exact le_refl x
  · exact le_of_lt ((List.pairwise_cons.mp hp).1 x hx2)

/-- Helper: the stage-2 outer loop writes the interpolated distance of the
segment `(a, b)` at every strictly-interior index `j`, for any sorted
change-point list containing `a` and `b` consecutively. -/
theorem applySegs_getElem?_seg (tps : List Trackpoint) (a b j : Nat)
    (haj : a < j) (hjb : j < b)
    (hdt : 0 < (tps.getD b default).time - (tps.getD a default).time) :
    ∀ (l₁ l₂ : List Nat) (res : List Trackpoint),
      List.Pairwise (· < ·) (l₁ ++ a :: b :: l₂) →
      (applySegs tps (l₁ ++ a :: b :: l₂) res)[j]? =
        (res[j]?).map (fun tp => { tp with distance_m := interpDistance tps a b j })
  | [], l₂, res, hp => by
    show (applySegs tps (b :: l₂) (applySeg tps res a b))[j]? = _
    have hbl : List.Pairwise (· < ·) (b :: l₂) := by
      simpa using hp.of_cons
    have hchain : List.Chain' (fun x y => ¬ (x < j ∧ j < y) ∨
        (tps.getD y default).time - (tps.getD x default).time ≤ 0) (b :: l₂) := by
      refine List.Pairwise.chain' (hbl.imp_of_mem ?_)
      intro x y hx _ _
      have hbx : b ≤ x := sorted_head_le hbl x hx
      exact Or.inl (fun hc => absurd hc.1 (by omega))
    rw [applySegs_getElem?_untouched tps (b :: l₂) _ j hchain]
    exact applySeg_getElem?_inside tps res a b j haj hjb hdt
  | c :: l₁, l₂, res, hp => by
    have hxa : ∃ x xs, l₁ ++ a :: b :: l₂ = x :: xs ∧ x ≤ a := by
      cases l₁ with
      | nil => exact ⟨a, b :: l₂, rfl, le_refl a⟩
      | cons d t =>
        refine ⟨d, t ++ a :: b :: l₂, rfl, le_of_lt ?_⟩
        have hp2 : List.Pairwise (· < ·) (d :: (t ++ a :: b :: l₂)) := by
          simpa using hp.of_cons
        exact (List.pairwise_cons.mp hp2).1 a (by simp)
    obtain ⟨x, xs, hxy, hxale⟩ := hxa
    have hstep : applySegs tps ((c :: l₁) ++ a :: b :: l₂) res =
        applySegs tps (l₁ ++ a :: b :: l₂) (applySeg tps res c x) := by
      rw [List.cons_append, hxy]
      rfl
    rw [hstep,
      applySegs_getElem?_seg tps a b j haj hjb hdt l₁ l₂ _ (by simpa using hp.of_cons),
      applySeg_getElem?_outside tps res c x j (fun hc => absurd hc.2 (by omega))]

/-- Helper: every index the change-point scan returns is at least the scan
start index. -/
theorem changePointsAux_ge :
    ∀ (l : List Trackpoint) (d : ℚ) (i : Nat), ∀ x ∈ changePointsAux d i l, i ≤ x
  | [], _, _ => by simp [changePointsAux]
  | tp :: rest, d, i => by
    intro x hx
    simp only [changePointsAux] at hx
    split at hx
    · rcases List.mem_cons.mp hx with rfl | hx2
      · exact le_refl x
      · exact le_trans (by omega) (changePointsAux_ge rest tp.distance_m (i + 1) x hx2)
    · exact le_trans (by omega) (changePointsAux_ge rest d (i + 1) x hx)

/-- Helper: the change-point scan returns a strictly increasing index
list. -/
theorem changePointsAux_chain' :
    ∀ (l : List Trackpoint) (d : ℚ) (i : Nat),
      List.Chain' (· < ·) (changePointsAux d i l)
  | [], _, _ => by simp [changePointsAux]
  | tp :: rest, d, i => by
    simp only [changePointsAux]
    split
    · rw [List.chain'_cons']
      refine ⟨?_, changePointsAux_chain' rest tp.distance_m (i + 1)⟩
      intro y hy
      have hmem := List.mem_of_mem_head? hy
      have := changePointsAux_ge rest tp.distance_m (i + 1) y hmem
      omega
    · exact changePointsAux_chain' rest d (i + 1)

/-- Helper: the full change-point list is strictly sorted. -/
theorem changePoints_pairwise (tps : List Trackpoint) :
    List.Pairwise (· < ·) (changePoints tps) := by
  rw [← List.chain'_iff_pairwise]
  cases tps with
  | nil => simp [changePoints]
  | cons t0 rest =>
    simp only [changePoints]
    rw [List.chain'_cons']
    refine ⟨?_, changePointsAux_chain' rest t0.distance_m 1⟩
    intro y hy
    have hmem := List.mem_of_mem_head? hy
    have := changePointsAux_ge rest t0.distance_m 1 y hmem
    omega

/-- C4: in stage 2, with change points the index sequence starting at 0
where distance strictly increases over the previous change point's
distance, every sample strictly between two consecutive change points with
positive elapsed time gets the linearly interpolated distance
`d_start + (t - t_start)/(t_end - t_start) * (d_end - d_start)`; a segment
with non-positive elapsed time is left unmodified; and with fewer than two
change points the trimmed sequence is returned unmodified. -/
theorem C4_stage2_interpolation :
    (∀ (tps : List Trackpoint) (l₁ l₂ : List Nat) (a b j : Nat),
      changePoints tps = l₁ ++ a :: b :: l₂ → a < j → j < b →
      0 < (tps.getD b default).time - (tps.getD a default).time →
      (interpolateJumps tps)[j]? =
        (tps[j]?).map (fun tp => { tp with distance_m := interpDistance tps a b j })) ∧
    (∀ (tps : List Trackpoint) (l₁ l₂ : List Nat) (a b j : Nat),
      changePoints tps = l₁ ++ a :: b :: l₂ → a < j → j < b →
      (tps.getD b default).time - (tps.getD a default).time ≤ 0 →
      (interpolateJumps tps)[j]? = tps[j]?) ∧
    (∀ l : List Trackpoint, ¬ l.length < 2 →
      ¬ (l.drop (firstNonzero l)).length < 2 →
      (changePoints (l.drop (firstNonzero l))).length < 2 →
      smoothTrackpoints l = l.drop (firstNonzero l)) := by
  refine ⟨?_, ?_, ?_⟩
  · intro tps l₁ l₂ a b j hcp haj hjb hdt
    have hp := changePoints_pairwise tps
    rw [hcp] at hp
    unfold interpolateJumps
    rw [hcp]
    exact applySegs_getElem?_seg tps a b j haj hjb hdt l₁ l₂ tps hp
  · intro tps l₁ l₂ a b j hcp haj hjb hdt
    have hp := changePoints_pairwise tps
    rw [hcp] at hp
    obtain ⟨hp1, hp2, hcross⟩ := List.pairwise_append.mp hp
    unfold interpolateJumps
    rw [hcp]
    refine applySegs_getElem?_untouched tps _ tps j ?_
    rw [List.chain'_append]
    refine ⟨?_, ?_, ?_⟩
    · refine List.Pairwise.chain' (hp1.imp_of_mem ?_)
      intro x y hx hy hlt
      have hya : y < a := hcross y hy a (by simp)
      exact Or.inl (fun hc => absurd hc.2 (by omega))
    · rw [List.chain'_cons]
      refine ⟨Or.inr hdt, ?_⟩
      have hbl : List.Pairwise (· < ·) (b :: l₂) := hp2.of_cons
      refine List.Pairwise.chain' (hbl.imp_of_mem ?_)
      intro x y hx _ _
      have hbx : b ≤ x := sorted_head_le hbl x hx
      exact Or.inl (fun hc => absurd hc.1 (by omega))
    · intro x hx y hy
      have hya : a = y := by simpa using hy
      subst hya
      exact Or.inl (fun hc => absurd hc.2 (by omega))
  · intro l h1 h2 h3
    simp only [smoothTrackpoints]
    rw [if_neg h1, if_neg h2, if_pos h3]

/-- Concrete stage-2 example of C4: timestamps 0/1/2/3 seconds, distances
10/10/10/20. -/
def c4Jump : List Trackpoint :=
  [{ time := 0, distance_m := 10, speed_kmh := 0, calories := 0 },
   { time := 1, distance_m := 10, speed_kmh := 0, calories := 0 },
   { time := 2, distance_m := 10, speed_kmh := 0, calories := 0 },
   { time := 3, distance_m := 20, speed_kmh := 0, calories := 0 }]

/-- Witness for C4: on the concrete example the change points are 0 and 3
and the interior samples interpolate to 40/3 at t=1 and 50/3 at t=2. -/
theorem C4_stage2_interpolation_witness :
    (interpolateJumps c4Jump)[1]? =
      some { time := 1, distance_m := (40 : ℚ)/3, speed_kmh := 0, calories := 0 } ∧
    (interpolateJumps c4Jump)[2]? =
      some { time := 2, distance_m := (50 : ℚ)/3, speed_kmh := 0, calories := 0 } := by
  have hcp : changePoints c4Jump = [] ++ 0 :: 3 :: [] := by
    norm_num [c4Jump, changePoints, changePointsAux]
  have hdt : 0 < ((c4Jump.getD 3 default).time - (c4Jump.getD 0 default).time) := by
    norm_num [c4Jump]
  constructor
  · rw [C4_stage2_interpolation.1 c4Jump [] [] 0 3 1 hcp (by omega) (by omega) hdt]
    norm_num [c4Jump, interpDistance]
  · rw [C4_stage2_interpolation.1 c4Jump [] [] 0 3 2 hcp (by omega) (by omega) hdt]
    norm_num [c4Jump, interpDistance]

/-- Helper: the defaulted last element of a nonempty list is a member. -/
theorem getLastD_cons_mem {α : Type} :
    ∀ (x : α) (xs : List α) (d : α), (x :: xs).getLastD d ∈ x :: xs
  | _, [], _ => by simp
  | x, y :: ys, d => by
    rw [List.getLastD_cons]
    exact List.mem_cons_of_mem x (getLastD_cons_mem y ys x)

/-- Helper: mapping commutes with the defaulted last element on nonempty
lists. -/
theorem getLastD_map_cons {α β : Type} (f : α → β) (x : α) (xs : List α) (d : α) (d2 : β) :
    ((x :: xs).map f).getLastD d2 = f ((x :: xs).getLastD d) := by
  rw [List.getLastD_eq_getLast?, List.getLastD_eq_getLast?, List.getLast?_map]
  have hne : x :: xs ≠ ([] : List α) := by simp
  obtain ⟨z, hz⟩ := Option.isSome_iff_exists.mp (List.getLast?_isSome.mpr hne)
  rw [hz]
  rfl

/-- Helper: the default is irrelevant on a nonempty list. -/
theorem getLastD_cons_irrel {α : Type} (x : α) (xs : List α) (d d2 : α) :
    (x :: xs).getLastD d = (x :: xs).getLastD d2 := by
  rw [List.getLastD_cons, List.getLastD_cons]

/-- Helper: the last element of an appended singleton. -/
theorem getLastD_concat {α : Type} (l : List α) (x d : α) :
    (l ++ [x]).getLastD d = x := by
  rw [List.getLastD_eq_getLast?, List.getLast?_concat]
  rfl

/-- Helper: the element stored at the final index is the last element. -/
theorem getLastD_of_getElem? {α : Type} (l : List α) (x d : α)
    (h : l[l.length - 1]? = some x) : l.getLastD d = x := by
  rw [List.getLastD_eq_getLast?, List.getLast?_eq_getElem?, h]
  rfl

/-- Helper: the stage-3 inner loop only ever returns input entries. -/
theorem mem_downsampleAux (interval : ℚ) :
    ∀ (l : List (Nat × Trackpoint)) (lastTs : ℚ) (p : Nat × Trackpoint),
      p ∈ downsampleAux interval lastTs l → p ∈ l
  | [], _, _, h => absurd h (by simp [downsampleAux])
  | (i, tp) :: rest, lastTs, p, h => by
    simp only [downsampleAux] at h
    split at h
    · rcases List.mem_cons.mp h with rfl | h2
      · exact List.mem_cons_self _ _
      · exact List.mem_cons_of_mem _ (mem_downsampleAux interval rest tp.time p h2)
    · exact List.mem_cons_of_mem _ (mem_downsampleAux interval rest lastTs p h)

/-- Helper: every entry of the enumeration carries its index and its list
element. -/
theorem mem_enumFromIdx :
    ∀ (l : List Trackpoint) (i : Nat) (p : Nat × Trackpoint),
      p ∈ enumFromIdx i l → ∃ k, k < l.length ∧ p.1 = i + k ∧ l[k]? = some p.2
  | [], _, _, h => absurd h (by simp [enumFromIdx])
  | tp :: rest, i, p, h => by
    simp only [enumFromIdx] at h
    rcases List.mem_cons.mp h with rfl | h2
    · exact ⟨0, by simp, by simp, by simp⟩
    · obtain ⟨k, hk, hp1, hp2⟩ := mem_enumFromIdx rest (i + 1) p h2
      exact ⟨k + 1, by simpa using hk, by omega, by simpa using hp2⟩

/-- Helper: dropping the indices recovers the enumerated list. -/
theorem enumFromIdx_map_snd :
    ∀ (i : Nat) (l : List Trackpoint), (enumFromIdx i l).map Prod.snd = l
  | _, [] => rfl
  | i, tp :: rest => by simp [enumFromIdx, enumFromIdx_map_snd (i + 1) rest]

/-- Helper: consecutive samples kept by the stage-3 inner loop are at least
`interval` seconds apart, anchored at the last kept sample. -/
theorem downsampleAux_chain (interval : ℚ) :
    ∀ (l : List (Nat × Trackpoint)) (a : Trackpoint),
      List.Chain (fun p q => interval ≤ q.time - p.time) a
        ((downsampleAux interval a.time l).map Prod.snd)
  | [], _ => List.Chain.nil
  | (i, tp) :: rest, a => by
    simp only [downsampleAux]
    split
    · rename_i hkeep
      simp only [List.map_cons]
      exact List.Chain.cons hkeep (downsampleAux_chain interval rest tp)
    · exact downsampleAux_chain interval rest a

/-- Helper: stage 3 always ends with the final sample of its input. -/
theorem downsample_getLastD (r0 : Trackpoint) (rest : List Trackpoint) :
    (downsample (r0 :: rest)).getLastD default = (r0 :: rest).getLastD default := by
  simp only [downsample]
  split
  · rename_i hidx
    rw [getLastD_map_cons Prod.snd (0, r0) _ (0, r0) default]
    set p := ((0, r0) :: downsampleAux 5 r0.time (enumFromIdx 1 rest)).getLastD (0, r0)
      with hpdef
    have hmem : p ∈ (0, r0) :: downsampleAux 5 r0.time (enumFromIdx 1 rest) :=
      getLastD_cons_mem (0, r0) (downsampleAux 5 r0.time (enumFromIdx 1 rest)) (0, r0)
    rcases List.mem_cons.mp hmem with hp0 | hpaux
    · rw [hp0] at hidx
      have hrest : rest.length = 0 := by
        simpa using hidx.symm
      rw [List.length_eq_zero] at hrest
      subst hrest
      rw [hp0]
      simp
    · obtain ⟨k, hk, hk1, hk2⟩ := mem_enumFromIdx rest 1 _
        (mem_downsampleAux 5 _ r0.time _ hpaux)
      have hkval : k = rest.length - 1 := by
        simp only [List.length_cons, Nat.add_sub_cancel] at hidx
        omega
      have hlast : (r0 :: rest).getLastD default = p.2 := by
        rw [List.getLastD_cons]
        exact getLastD_of_getElem? rest p.2 r0 (hkval ▸ hk2)
      exact hlast.symm
  · simp only [List.map_append, List.map_cons, List.map_nil]
    rw [getLastD_concat]
    exact getLastD_cons_irrel r0 rest r0 default

/-- Helper: stage 3 always keeps the first sample first. -/
theorem downsample_head (r0 : Trackpoint) (rest : List Trackpoint) :
    (downsample (r0 :: rest)).head? = some r0 := by
  simp only [downsample]
  split <;> simp

/-- Twelve samples spaced one second apart, the concrete input of C5. -/
def c5Twelve : List Trackpoint :=
  [{ time := 0, distance_m := 1, speed_kmh := 0, calories := 0 },
   { time := 1, distance_m := 1, speed_kmh := 0, calories := 0 },
   { time := 2, distance_m := 1, speed_kmh := 0, calories := 0 },
   { time := 3, distance_m := 1, speed_kmh := 0, calories := 0 },
   { time := 4, distance_m := 1, speed_kmh := 0, calories := 0 },
   { time := 5, distance_m := 1, speed_kmh := 0, calories := 0 },
   { time := 6, distance_m := 1, speed_kmh := 0, calories := 0 },
   { time := 7, distance_m := 1, speed_kmh := 0, calories := 0 },
   { time := 8, distance_m := 1, speed_kmh := 0, calories := 0 },
   { time := 9, distance_m := 1, speed_kmh := 0, calories := 0 },
   { time := 10, distance_m := 1, speed_kmh := 0, calories := 0 },
   { time := 11, distance_m := 1, speed_kmh := 0, calories := 0 }]

/-- C5 counterexample: the 12 samples spaced 1 second apart downsample to 4
samples — the 5-second rule keeps t=0, t=5, t=10 and the final t=11 sample
is force-appended — so the claimed bound of at most 3 kept samples fails. -/
theorem C5_counterexample_twelve_samples : ¬ ((downsample c5Twelve).length ≤ 3) := by
  have h : (downsample c5Twelve).length = 4 := by
    norm_num [c5Twelve, downsample, downsampleAux, enumFromIdx]
  omega

/-- C5 amended: stage 3 always keeps the first sample, keeps a later sample
by the interval rule only when at least 5 seconds have elapsed since the
last kept sample, and always ends with the final sample of its input; the
12-sample one-second-apart example downsamples to 4 samples (3 kept by the
5-second rule plus the force-kept last original sample). -/
theorem C5_downsample_force_keep :
    (∀ (r0 : Trackpoint) (rest : List Trackpoint),
      (downsample (r0 :: rest)).head? = some r0 ∧
      List.Chain (fun p q => (5 : ℚ) ≤ q.time - p.time) r0
        ((downsampleAux 5 r0.time (enumFromIdx 1 rest)).map Prod.snd) ∧
      (downsample (r0 :: rest)).getLastD default = (r0 :: rest).getLastD default) ∧
    (downsample c5Twelve).length = 4 ∧
    (downsample c5Twelve).getLastD default =
      { time := 11, distance_m := 1, speed_kmh := 0, calories := 0 } := by
  refine ⟨fun r0 rest => ⟨downsample_head r0 rest, ?_, downsample_getLastD r0 rest⟩, ?_, ?_⟩
  · exact downsampleAux_chain 5 (enumFromIdx 1 rest) r0
  · norm_num [c5Twelve, downsample, downsampleAux, enumFromIdx]
  · norm_num [c5Twelve, downsample, downsampleAux, enumFromIdx, List.getLastD]

/-- Helper: the speed write keeps the sample's timestamp. -/
theorem speedAt_time (p c : Trackpoint) : (speedAt p c).time = c.time := by
  simp only [speedAt]
  split <;> rfl

/-- Helper: the speed write keeps the sample's distance. -/
theorem speedAt_distance (p c : Trackpoint) : (speedAt p c).distance_m = c.distance_m := by
  simp only [speedAt]
  split <;> rfl

/-- Helper: the speed write only reads the predecessor's time and
distance. -/
theorem speedAt_congr (p p2 c : Trackpoint) (h1 : p.time = p2.time)
    (h2 : p.distance_m = p2.distance_m) : speedAt p c = speedAt p2 c := by
  simp only [speedAt, h1, h2]

/-- Helper: the speed-recalculation loop preserves length. -/
theorem recomputeAux_length : ∀ (prev : Trackpoint) (l : List Trackpoint),
    (recomputeAux prev l).length = l.length
  | _, [] => rfl
  | prev, cur :: rest => by
    simp [recomputeAux, recomputeAux_length (speedAt prev cur) rest]

/-- Helper: the speed-recalculation loop acts pointwise, each sample paired
with its original predecessor (whose time and distance the loop reads are
unchanged by the speed writes). -/
theorem recomputeAux_getElem? :
    ∀ (l : List Trackpoint) (prev : Trackpoint) (i : Nat),
      (recomputeAux prev l)[i]? =
        (l[i]?).map (fun c => speedAt (if i = 0 then prev else l.getD (i - 1) default) c)
  | [], _, _ => by simp [recomputeAux]
  | cur :: rest, prev, 0 => by simp [recomputeAux]
  | cur :: rest, prev, i + 1 => by
    simp only [recomputeAux, List.getElem?_cons_succ]
    rw [recomputeAux_getElem? rest (speedAt prev cur) i]
    cases i with
    | zero =>
      cases hr : rest[0]? with
      | none => simp [hr]
      | some c =>
        simp only [hr, Option.map_some', if_pos rfl]
        have hc := speedAt_congr (speedAt prev cur) cur c (speedAt_time prev cur)
          (speedAt_distance prev cur)
        simp [hc, List.getD]
    | succ k =>
      cases hr : rest[k + 1]? with
      | none => simp [hr]
      | some c =>
        simp [hr, List.getD_cons_succ]

/-- Helper: the last entry of a nonempty list through `getLast?`. -/
theorem getLast?_cons_getLastD {α : Type} (x : α) (xs : List α) (d : α) :
    (x :: xs).getLast? = some ((x :: xs).getLastD d) := by
  have hne : x :: xs ≠ ([] : List α) := by simp
  obtain ⟨z, hz⟩ := Option.isSome_iff_exists.mp (List.getLast?_isSome.mpr hne)
  rw [hz, List.getLastD_eq_getLast?, hz]
  rfl

/-- Helper: with strictly increasing timestamps, stage 3 again produces
strictly increasing timestamps — the interval rule enforces 5-second gaps
and the force-appended final sample lies strictly after the last kept
one. -/
theorem downsample_chain'_lt (res : List Trackpoint)
    (hmono : List.Chain' (fun p q => p.time < q.time) res) :
    List.Chain' (fun p q => p.time < q.time) (downsample res) := by
  haveI : IsTrans Trackpoint (fun p q => p.time < q.time) :=
    ⟨fun _ _ _ h1 h2 => lt_trans h1 h2⟩
  cases res with
  | nil => simp [downsample]
  | cons r0 rest =>
    have hgap := downsampleAux_chain 5 (enumFromIdx 1 rest) r0
    have hlt : List.Chain (fun p q => p.time < q.time) r0
        ((downsampleAux 5 r0.time (enumFromIdx 1 rest)).map Prod.snd) :=
      hgap.imp (fun p q h => by linarith)
    have hpair : List.Pairwise (fun p q => p.time < q.time) (r0 :: rest) :=
      List.chain'_iff_pairwise.mp hmono
    simp only [downsample]
    split
    · simp only [List.map_cons]
      exact hlt
    · rename_i hne
      simp only [List.map_append, List.map_cons, List.map_nil]
      rw [List.chain'_append]
      refine ⟨hlt, List.chain'_singleton _, ?_⟩
      intro x hx y hy
      have hy2 : (r0 :: rest).getLastD r0 = y := by simpa using hy
      have hx2 : (((0, r0) :: downsampleAux 5 r0.time (enumFromIdx 1 rest)).getLastD
          (0, r0)).2 = x := by
        rw [getLast?_cons_getLastD r0 _ r0] at hx
        have hmap := getLastD_map_cons Prod.snd (0, r0)
          (downsampleAux 5 r0.time (enumFromIdx 1 rest)) (0, r0) r0
        simp only [List.map_cons] at hmap
        rw [hmap] at hx
        exact Option.mem_some_iff.mp hx
      set p := ((0, r0) :: downsampleAux 5 r0.time (enumFromIdx 1 rest)).getLastD (0, r0)
        with hpdef
      have hmem : p ∈ (0, r0) :: downsampleAux 5 r0.time (enumFromIdx 1 rest) :=
        getLastD_cons_mem (0, r0) (downsampleAux 5 r0.time (enumFromIdx 1 rest)) (0, r0)
      have hgen : (r0 :: rest)[p.1]? = some p.2 ∧ p.1 < (r0 :: rest).length - 1 := by
        rcases List.mem_cons.mp hmem with hp0 | hpaux
        · constructor
          · rw [hp0]
            simp
          · rw [hp0] at hne ⊢
            simp only [List.length_cons, Nat.add_sub_cancel] at hne ⊢
            omega
        · obtain ⟨k, hk, hk1, hk2⟩ := mem_enumFromIdx rest 1 _
            (mem_downsampleAux 5 _ r0.time _ hpaux)
          constructor
          · rw [hk1, Nat.add_comm 1 k]
            simpa using hk2
          · simp only [List.length_cons, Nat.add_sub_cancel] at hne ⊢
            omega
      have hlastelem : (r0 :: rest)[(r0 :: rest).length - 1]? =
          some ((r0 :: rest).getLastD r0) := by
        rw [← List.getLast?_eq_getElem?]
        exact getLast?_cons_getLastD r0 rest r0
      obtain ⟨hb1, he1⟩ := List.getElem?_eq_some_iff.mp hgen.1
      obtain ⟨hb2, he2⟩ := List.getElem?_eq_some_iff.mp hlastelem
      have hpl := List.pairwise_iff_getElem.mp hpair p.1 ((r0 :: rest).length - 1) hb1 hb2
        hgen.2
      rw [he1, he2] at hpl
      rw [← hx2, ← hy2]
      exact hpl

/-- Helper: the final speed pass preserves length. -/
theorem recomputeSpeeds_length : ∀ (l : List Trackpoint),
    (recomputeSpeeds l).length = l.length
  | [] => rfl
  | r0 :: rest => by
    have hlen := recomputeAux_length r0 rest
    simp only [recomputeSpeeds]
    cases haux : recomputeAux r0 rest with
    | nil =>
      rw [haux] at hlen
      simp [← hlen]
    | cons r1 rest2 =>
      rw [haux] at hlen
      simp [← hlen]

/-- Helper: past the head, the final speed pass writes `speedAt` of each
sample with its predecessor. -/
theorem recomputeSpeeds_getElem?_succ (d0 : Trackpoint) (tail : List Trackpoint) (k : Nat) :
    (recomputeSpeeds (d0 :: tail))[k + 1]? =
      (tail[k]?).map (fun c => speedAt ((d0 :: tail).getD k default) c) := by
  have hlen := recomputeAux_length d0 tail
  simp only [recomputeSpeeds]
  cases haux : recomputeAux d0 tail with
  | nil =>
    rw [haux] at hlen
    have htail : tail = [] := by
      cases tail with
      | nil => rfl
      | cons a b => simp at hlen
    subst htail
    simp
  | cons r1 rest2 =>
    have h1 : ({ d0 with speed_kmh := r1.speed_kmh } :: r1 :: rest2)[k + 1]? =
        (r1 :: rest2)[k]? := List.getElem?_cons_succ
    rw [h1, ← haux, recomputeAux_getElem? tail d0 k]
    cases k with
    | zero => simp [List.getD]
    | succ k2 => simp [List.getD_cons_succ]

/-- Helper: with at least two samples, the head's speed is copied from the
recomputed second sample. -/
theorem recomputeSpeeds_head_cons (d0 d1 : Trackpoint) (tail2 : List Trackpoint) :
    (recomputeSpeeds (d0 :: d1 :: tail2))[0]? =
      some { d0 with speed_kmh := (speedAt d0 d1).speed_kmh } := by
  simp [recomputeSpeeds, recomputeAux]

/-- Helper: specification of the final speed pass of `_smooth_trackpoints`
on any input with strictly increasing timestamps. -/
theorem recomputeSpeeds_spec (ds : List Trackpoint)
    (hds : List.Chain' (fun p q => p.time < q.time) ds) :
    (recomputeSpeeds ds).length = ds.length ∧
    (∀ i, 1 ≤ i → i < (recomputeSpeeds ds).length →
      ((recomputeSpeeds ds).getD i default).time = (ds.getD i default).time ∧
      ((recomputeSpeeds ds).getD i default).distance_m = (ds.getD i default).distance_m ∧
      ((recomputeSpeeds ds).getD i default).speed_kmh =
        ((ds.getD i default).distance_m - (ds.getD (i - 1) default).distance_m) /
          ((ds.getD i default).time - (ds.getD (i - 1) default).time) * (3.6 : ℚ)) ∧
    (2 ≤ (recomputeSpeeds ds).length →
      ((recomputeSpeeds ds).getD 0 default).speed_kmh =
        ((recomputeSpeeds ds).getD 1 default).speed_kmh) ∧
    ((recomputeSpeeds ds).length = 1 →
      ((recomputeSpeeds ds).getD 0 default).speed_kmh = 0) := by
  cases ds with
  | nil =>
    refine ⟨rfl, ?_, ?_, ?_⟩
    · intro i h1 hi
      simp [recomputeSpeeds] at hi
    · intro h2
      simp [recomputeSpeeds] at h2
    · intro h4
      simp [recomputeSpeeds] at h4
  | cons d0 tail =>
    refine ⟨recomputeSpeeds_length _, ?_, ?_, ?_⟩
    · intro i h1 hi
      obtain ⟨k, rfl⟩ : ∃ k, i = k + 1 := ⟨i - 1, by omega⟩
      have hklen : k < tail.length := by
        have := recomputeSpeeds_length (d0 :: tail)
        simp only [this, List.length_cons] at hi
        omega
      have hc : tail[k]? = some tail[k] := List.getElem?_eq_getElem hklen
      have hout : (recomputeSpeeds (d0 :: tail))[k + 1]? =
          some (speedAt ((d0 :: tail).getD k default) tail[k]) := by
        rw [recomputeSpeeds_getElem?_succ, hc]
        rfl
      have houtD : (recomputeSpeeds (d0 :: tail)).getD (k + 1) default =
          speedAt ((d0 :: tail).getD k default) tail[k] := by
        rw [List.getD_eq_getElem?_getD, hout]
        rfl
      have hdsD : (d0 :: tail).getD (k + 1) default = tail[k] := by
        rw [List.getD_eq_getElem?_getD, List.getElem?_cons_succ, hc]
        rfl
      have hprev : (d0 :: tail).getD k default = (d0 :: tail).get ⟨k, by simp; omega⟩ := by
        rw [List.getD_eq_getElem (d0 :: tail) default (by simp; omega)]
        simp
      have hcur : tail[k] = (d0 :: tail).get ⟨k + 1, by simp; omega⟩ := by
        simp
      have hlt : ((d0 :: tail).getD k default).time < tail[k].time := by
        have hchain := List.chain'_iff_get.mp hds k (by simp; omega)
        rw [hprev, hcur]
        exact hchain
      have hdtpos : 0 < tail[k].time - ((d0 :: tail).getD k default).time :=
        sub_pos.mpr hlt
      have hspeed : speedAt ((d0 :: tail).getD k default) tail[k] =
          { tail[k] with speed_kmh :=
              (tail[k].distance_m - ((d0 :: tail).getD k default).distance_m) /
                (tail[k].time - ((d0 :: tail).getD k default).time) * (3.6 : ℚ) } := by
        simp only [speedAt]
        rw [if_pos hdtpos]
      rw [houtD, hdsD, hspeed]
      simp
    · intro h2
      have hlen := recomputeSpeeds_length (d0 :: tail)
      rw [hlen] at h2
      obtain ⟨d1, tail2, rfl⟩ : ∃ d1 tail2, tail = d1 :: tail2 := by
        cases tail with
        | nil => simp at h2
        | cons a b => exact ⟨a, b, rfl⟩
      have hh := recomputeSpeeds_head_cons d0 d1 tail2
      have h0 : (recomputeSpeeds (d0 :: d1 :: tail2)).getD 0 default =
          { d0 with speed_kmh := (speedAt d0 d1).speed_kmh } := by
        rw [List.getD_eq_getElem?_getD, hh]
        rfl
      have h1v : (recomputeSpeeds (d0 :: d1 :: tail2)).getD 1 default =
          speedAt d0 d1 := by
        rw [List.getD_eq_getElem?_getD]
        rw [show (1 : Nat) = 0 + 1 from rfl, recomputeSpeeds_getElem?_succ]
        simp [List.getD]
      rw [h0, h1v]
    · intro h4
      have hlen := recomputeSpeeds_length (d0 :: tail)
      rw [hlen] at h4
      have htail : tail = [] := by
        cases tail with
        | nil => rfl
        | cons a b => simp at h4
      subst htail
      simp [recomputeSpeeds, recomputeAux, List.getD]

/-- C6: after downsampling (for any input whose timestamps strictly
increase, as the session recorder's wall-clock stamps do), every sample
except the first has its output `speed_kmh` equal to
`(Δdistance / Δtime) * 3.6` computed from the smoothed distances and
timestamps of that sample and its predecessor, whose time and distance the
pass preserves; the first sample's speed is copied from the second sample's
recomputed speed when a second exists and is 0 otherwise. -/
theorem C6_speed_from_smoothed (res : List Trackpoint)
    (hmono : List.Chain' (fun p q => p.time < q.time) res) :
    (recomputeSpeeds (downsample res)).length = (downsample res).length ∧
    (∀ i, 1 ≤ i → i < (recomputeSpeeds (downsample res)).length →
      ((recomputeSpeeds (downsample res)).getD i default).time =
        ((downsample res).getD i default).time ∧
      ((recomputeSpeeds (downsample res)).getD i default).distance_m =
        ((downsample res).getD i default).distance_m ∧
      ((recomputeSpeeds (downsample res)).getD i default).speed_kmh =
        (((downsample res).getD i default).distance_m -
          ((downsample res).getD (i - 1) default).distance_m) /
        (((downsample res).getD i default).time -
          ((downsample res).getD (i - 1) default).time) * (3.6 : ℚ)) ∧
    (2 ≤ (recomputeSpeeds (downsample res)).length →
      ((recomputeSpeeds (downsample res)).getD 0 default).speed_kmh =
        ((recomputeSpeeds (downsample res)).getD 1 default).speed_kmh) ∧
    ((recomputeSpeeds (downsample res)).length = 1 →
      ((recomputeSpeeds (downsample res)).getD 0 default).speed_kmh = 0) :=
  recomputeSpeeds_spec (downsample res) (downsample_chain'_lt res hmono)

/-- Three clean samples five seconds apart, the concrete input of the C6
witness. -/
def c6Three : List Trackpoint :=
  [{ time := 0, distance_m := 5, speed_kmh := 2, calories := 0 },
   { time := 5, distance_m := 10, speed_kmh := 3, calories := 0 },
   { time := 10, distance_m := 15, speed_kmh := 4, calories := 0 }]

/-- Witness for C6 at the concrete three-sample input: the second output
speed satisfies the recomputation formula and the first output speed is the
copy of the second. -/
theorem C6_speed_from_smoothed_witness :
    ((recomputeSpeeds (downsample c6Three)).getD 1 default).speed_kmh =
      (((downsample c6Three).getD 1 default).distance_m -
        ((downsample c6Three).getD 0 default).distance_m) /
      (((downsample c6Three).getD 1 default).time -
        ((downsample c6Three).getD 0 default).time) * (3.6 : ℚ) ∧
    ((recomputeSpeeds (downsample c6Three)).getD 0 default).speed_kmh =
      ((recomputeSpeeds (downsample c6Three)).getD 1 default).speed_kmh := by
  have hchain : List.Chain' (fun p q : Trackpoint => p.time < q.time) c6Three := by
    norm_num [c6Three, List.chain'_cons, List.chain'_singleton]
  have h := C6_speed_from_smoothed c6Three hchain
  have hlen : (recomputeSpeeds (downsample c6Three)).length = 3 := by
    norm_num [c6Three, downsample, downsampleAux, enumFromIdx, recomputeSpeeds,
      recomputeAux, speedAt]
  refine ⟨(h.2.1 1 le_rfl ?_).2.2, h.2.2.1 ?_⟩
  · rw [hlen]
    omega
  · rw [hlen]
    omega

/-- Helper: when the distance strictly increases at every step, every index
is a change point. -/
theorem changePointsAux_of_lt :
    ∀ (l : List Trackpoint) (d : ℚ) (i : Nat),
      List.Chain (· < ·) d (l.map Trackpoint.distance_m) →
      changePointsAux d i l = List.range' i l.length
  | [], _, _, _ => by simp [changePointsAux, List.range']
  | tp :: rest, d, i, h => by
    rw [List.map_cons, List.chain_cons] at h
    obtain ⟨hdx, hrest⟩ := h
    simp only [changePointsAux]
    rw [if_pos (show tp.distance_m > d from hdx)]
    rw [changePointsAux_of_lt rest tp.distance_m (i + 1) hrest]
    simp [List.range']

/-- Helper: a segment of two adjacent change points has no interior sample,
so the stage-2 pass over it is the identity. -/
theorem applySeg_succ_eq (tps res : List Trackpoint) (a : Nat) :
    applySeg tps res a (a + 1) = res := by
  simp only [applySeg]
  split
  · rfl
  · exact mapIdxFrom_eq_self _
      (fun j tp => by rw [if_neg (by omega : ¬ (a < j ∧ j < a + 1))]) 0 res

/-- Helper: the stage-2 outer loop over a run of adjacent indices changes
nothing. -/
theorem applySegs_succ_chain (tps : List Trackpoint) :
    ∀ (cs : List Nat) (res : List Trackpoint),
      List.Chain' (fun x y => y = x + 1) cs →
      applySegs tps cs res = res
  | [], _, _ => rfl
  | [_], _, _ => rfl
  | x :: y :: rest, res, h => by
    rw [List.chain'_cons] at h
    obtain ⟨hxy, hrest⟩ := h
    subst hxy
    show applySegs tps ((x + 1) :: rest) (applySeg tps res x (x + 1)) = res
    rw [applySeg_succ_eq]
    exact applySegs_succ_chain tps ((x + 1) :: rest) res hrest

/-- Helper: successive indices of `range'` differ by one. -/
theorem range'_chain_succ :
    ∀ (n s : Nat), List.Chain' (fun x y => y = x + 1) (List.range' s n)
  | 0, _ => by simp [List.range']
  | n + 1, s => by
    simp only [List.range']
    rw [List.chain'_cons']
    refine ⟨?_, range'_chain_succ n (s + 1)⟩
    intro y hy
    cases n with
    | zero => simp [List.range'] at hy
    | succ m =>
      simp [List.range'] at hy
      omega

/-- Helper: when every consecutive gap meets the interval, the stage-3
inner loop keeps every sample. -/
theorem downsampleAux_all_kept (interval : ℚ) :
    ∀ (l : List Trackpoint) (i : Nat) (a : Trackpoint),
      List.Chain (fun p q => interval ≤ q.time - p.time) a l →
      downsampleAux interval a.time (enumFromIdx i l) = enumFromIdx i l
  | [], _, _, _ => by simp [enumFromIdx, downsampleAux]
  | tp :: rest, i, a, h => by
    obtain ⟨hat, hrest⟩ := List.chain_cons.mp h
    simp only [enumFromIdx, downsampleAux]
    rw [if_pos (show tp.time - a.time ≥ interval from hat)]
    rw [downsampleAux_all_kept interval rest (i + 1) tp hrest]

/-- Helper: the last entry of a nonempty enumeration carries the final
index. -/
theorem enumFromIdx_getLastD_fst :
    ∀ (l : List Trackpoint) (i : Nat) (d : Nat × Trackpoint), l ≠ [] →
      ((enumFromIdx i l).getLastD d).1 = i + l.length - 1
  | [], _, _, h => absurd rfl h
  | [tp], i, d, _ => by simp [enumFromIdx]
  | tp :: tp2 :: rest, i, d, _ => by
    simp only [enumFromIdx]
    rw [List.getLastD_cons]
    have h := enumFromIdx_getLastD_fst (tp2 :: rest) (i + 1) (i, tp) (by simp)
    simp only [enumFromIdx] at h
    rw [h]
    simp only [List.length_cons]
    omega

/-- Helper: the speed loop never touches distances. -/
theorem recomputeAux_map_distance : ∀ (prev : Trackpoint) (l : List Trackpoint),
    (recomputeAux prev l).map Trackpoint.distance_m = l.map Trackpoint.distance_m
  | _, [] => rfl
  | prev, cur :: rest => by
    simp [recomputeAux, speedAt_distance,
      recomputeAux_map_distance (speedAt prev cur) rest]

/-- Helper: the final speed pass never touches distances. -/
theorem recomputeSpeeds_map_distance : ∀ (l : List Trackpoint),
    (recomputeSpeeds l).map Trackpoint.distance_m = l.map Trackpoint.distance_m
  | [] => rfl
  | r0 :: rest => by
    have haux := recomputeAux_map_distance r0 rest
    have hlen := recomputeAux_length r0 rest
    simp only [recomputeSpeeds]
    cases hx : recomputeAux r0 rest with
    | nil =>
      rw [hx] at hlen
      have hrest : rest = [] := by
        cases rest with
        | nil => rfl
        | cons a b => simp at hlen
      subst hrest
      simp
    | cons r1 rest2 =>
      rw [hx] at haux
      simp only [List.map_cons] at haux ⊢
      rw [← haux]

/-- C9 amended: for every non-empty input whose distances are strictly
increasing and evenly spaced, whose first distance is strictly positive
(so the stage-1 trim drops nothing) and whose consecutive timestamps are at
least 5 seconds apart, the smoother returns a sequence of equal length with
every distance unchanged. -/
theorem C9_clean_input_identity (l : List Trackpoint) (step : ℚ)
    (hne : l ≠ [])
    (hpos : 0 < (l.headD default).distance_m)
    (hinc : List.Chain' (fun p q => p.distance_m < q.distance_m) l)
    (heven : List.Chain' (fun p q => q.distance_m - p.distance_m = step) l)
    (hgap : List.Chain' (fun p q => (5 : ℚ) ≤ q.time - p.time) l) :
    (smoothTrackpoints l).length = l.length ∧
    (smoothTrackpoints l).map Trackpoint.distance_m = l.map Trackpoint.distance_m := by
  obtain ⟨r0, rest, rfl⟩ : ∃ r0 rest, l = r0 :: rest := by
    cases l with
    | nil => exact absurd rfl hne
    | cons a b => exact ⟨a, b, rfl⟩
  cases rest with
  | nil => simp [smoothTrackpoints]
  | cons r1 rest2 =>
    have hr0 : 0 < r0.distance_m := by simpa using hpos
    have hfz : firstNonzero (r0 :: r1 :: rest2) = 0 := by
      simp [firstNonzero, firstNonzeroAux, hr0]
    have hcp : changePoints (r0 :: r1 :: rest2) =
        List.range' 0 (r0 :: r1 :: rest2).length := by
      have hchain : List.Chain (· < ·) r0.distance_m
          ((r1 :: rest2).map Trackpoint.distance_m) :=
        (List.chain_map Trackpoint.distance_m).mpr hinc
      simp only [changePoints]
      rw [changePointsAux_of_lt (r1 :: rest2) r0.distance_m 1 hchain]
      simp [List.range']
    have hinterp : interpolateJumps (r0 :: r1 :: rest2) = r0 :: r1 :: rest2 := by
      unfold interpolateJumps
      rw [hcp]
      exact applySegs_succ_chain _ _ _ (range'_chain_succ _ 0)
    have hdsall : downsampleAux 5 r0.time (enumFromIdx 1 (r1 :: rest2)) =
        enumFromIdx 1 (r1 :: rest2) :=
      downsampleAux_all_kept 5 (r1 :: rest2) 1 r0 hgap
    have hds : downsample (r0 :: r1 :: rest2) = r0 :: r1 :: rest2 := by
      simp only [downsample]
      rw [hdsall]
      have hidx : (((0, r0) :: enumFromIdx 1 (r1 :: rest2)).getLastD (0, r0)).1 =
          (r0 :: r1 :: rest2).length - 1 := by
        have h := enumFromIdx_getLastD_fst (r0 :: r1 :: rest2) 0 (0, r0) (by simp)
        simp only [enumFromIdx] at h
        simpa using h
      rw [if_pos hidx]
      have h := enumFromIdx_map_snd 0 (r0 :: r1 :: rest2)
      simpa [enumFromIdx] using h
    have hlen2 : ¬ (r0 :: r1 :: rest2).length < 2 := by simp
    have hcplen : ¬ (changePoints ((r0 :: r1 :: rest2).drop
        (firstNonzero (r0 :: r1 :: rest2)))).length < 2 := by
      rw [hfz, List.drop_zero, hcp, List.length_range']
      simp
    have hsm : smoothTrackpoints (r0 :: r1 :: rest2) =
        recomputeSpeeds (r0 :: r1 :: rest2) := by
      simp only [smoothTrackpoints]
      rw [if_neg hlen2, hfz, List.drop_zero]
      rw [if_neg (by simp : ¬ (r0 :: r1 :: rest2).length < 2)]
      rw [hfz, List.drop_zero] at hcplen
      rw [if_neg hcplen, hinterp, hds]
    rw [hsm]
    exact ⟨recomputeSpeeds_length _, recomputeSpeeds_map_distance _⟩

/-- Three samples whose distances start at zero, strictly increase and are
evenly spaced, with 5-second timestamp gaps — the C9 counterexample. -/
def c9Zero : List Trackpoint :=
  [{ time := 0, distance_m := 0, speed_kmh := 0, calories := 0 },
   { time := 5, distance_m := 5, speed_kmh := 0, calories := 0 },
   { time := 10, distance_m := 10, speed_kmh := 0, calories := 0 }]

/-- C9 counterexample: the input `c9Zero` satisfies every condition of the
claim (non-empty, strictly increasing evenly spaced distances, 5-second
gaps) yet the smoother drops its leading zero-distance sample, returning 2
samples for 3. -/
theorem C9_counterexample_zero_start :
    c9Zero ≠ [] ∧
    List.Chain' (fun p q => p.distance_m < q.distance_m) c9Zero ∧
    List.Chain' (fun p q => q.distance_m - p.distance_m = (5 : ℚ)) c9Zero ∧
    List.Chain' (fun p q => (5 : ℚ) ≤ q.time - p.time) c9Zero ∧
    (smoothTrackpoints c9Zero).length = 2 ∧
    ¬ ((smoothTrackpoints c9Zero).length = c9Zero.length) := by
  have hlen : (smoothTrackpoints c9Zero).length = 2 := by
    norm_num [c9Zero, smoothTrackpoints, firstNonzero, firstNonzeroAux, changePoints,
      changePointsAux, interpolateJumps, applySegs, applySeg, interpDistance, mapIdxFrom,
      downsample, downsampleAux, enumFromIdx, recomputeSpeeds, recomputeAux, speedAt]
  refine ⟨by simp [c9Zero], ?_, ?_, ?_, hlen, ?_⟩
  · norm_num [c9Zero, List.chain'_cons, List.chain'_singleton]
  · norm_num [c9Zero, List.chain'_cons, List.chain'_singleton]
  · norm_num [c9Zero, List.chain'_cons, List.chain'_singleton]
  · rw [hlen]
    simp [c9Zero]

/-- Three clean samples with positive start distance, the C9 witness
input. -/
def c9Good : List Trackpoint :=
  [{ time := 0, distance_m := 5, speed_kmh := 2, calories := 0 },
   { time := 5, distance_m := 10, speed_kmh := 3, calories := 0 },
   { time := 10, distance_m := 15, speed_kmh := 4, calories := 0 }]

/-- Witness for C9's amended statement at a concrete clean input. -/
theorem C9_clean_input_identity_witness :
    (smoothTrackpoints c9Good).length = c9Good.length ∧
    (smoothTrackpoints c9Good).map Trackpoint.distance_m =
      c9Good.map Trackpoint.distance_m :=
  C9_clean_input_identity c9Good 5 (by simp [c9Good])
    (by norm_num [c9Good])
    (by norm_num [c9Good, List.chain'_cons, List.chain'_singleton])
    (by norm_num [c9Good, List.chain'_cons, List.chain'_singleton])
    (by norm_num [c9Good, List.chain'_cons, List.chain'_singleton])
